import Mathlib

/-!
Verification of the sandwich-project customer/sale ledger engine.

This file gives a shallow embedding of the Google Apps Script sources
(`gas-api/Sales.js`, `gas-api/Summary.js`, `gas-api/Code.js` and the
Customers module) and proves properties of the embedded operations.

Modelling conventions:
* JS strings are `List Char` (`Str`); `String.prototype.trim`,
  `toLowerCase`, `replace(/\D/g,"")` and `parseInt` are embedded on the
  ASCII fragment the data actually uses.
* Spreadsheet cells are `Cell` (a number, the JS `NaN`, or a string);
  sheets are a header row plus data rows; the spreadsheet is a `Store`
  with the fixed sheets (`customers`, `settings`, `sales_summary`) as
  fields and the monthly `sales_YYYY_MM` sheets as a name-keyed list.
* The `customers` sheet is modelled with its fixed schema
  (`customer_id, first_name, last_name, phone, email, registered_at`),
  all cells strings, which is what the code itself writes.
* JS numbers that the code range-checks before use are embedded as `Rat`
  (so "is an integer" is expressible); after validation the code only
  does integer arithmetic, embedded as `Int`.
* The ambient clock (`new Date()`) is passed in explicitly as the
  preformatted month (`yyyy-MM`) and ISO timestamp strings.
-/

abbrev Str := List Char

/-- Membership in the character class `[0-9]` (the complement of the
`\D` used by `NON_DIGITS_REGEX`). -/
def isDig (c : Char) : Bool := decide (48 ≤ c.toNat ∧ c.toNat ≤ 57)

/-- The 26 upper/lower case ASCII letter pairs. -/
def lowerPairs : List (Char × Char) :=
  [('A', 'a'), ('B', 'b'), ('C', 'c'), ('D', 'd'), ('E', 'e'), ('F', 'f'),
   ('G', 'g'), ('H', 'h'), ('I', 'i'), ('J', 'j'), ('K', 'k'), ('L', 'l'),
   ('M', 'm'), ('N', 'n'), ('O', 'o'), ('P', 'p'), ('Q', 'q'), ('R', 'r'),
   ('S', 's'), ('T', 't'), ('U', 'u'), ('V', 'v'), ('W', 'w'), ('X', 'x'),
   ('Y', 'y'), ('Z', 'z')]

/-- ASCII lowercasing of a single character (`toLowerCase` on the
ASCII fragment). -/
def lowerChar (c : Char) : Char :=
  ((lowerPairs.find? (fun p => p.1 == c)).map Prod.snd).getD c

/-- `s.toLowerCase()`. -/
def jsToLower (s : Str) : Str := s.map lowerChar

/-- Left part of `s.trim()`. -/
def trimLeft (s : Str) : Str := s.dropWhile Char.isWhitespace

/-- Right part of `s.trim()`. -/
def trimRight (s : Str) : Str := (trimLeft s.reverse).reverse

/-- `s.trim()`. -/
def jsTrim (s : Str) : Str := trimRight (trimLeft s)

/-- `String(v).trim().toLowerCase()`: the normalisation `_findCustomerBy`
applies to both the needle and each cell before comparing. -/
def normKey (s : Str) : Str := jsToLower (jsTrim s)

/-- Value of a digit string, most significant digit first
(the semantics of `parseInt` on an all-digit string). -/
def digitsToNat (ds : Str) : Nat := ds.foldl (fun acc c => acc * 10 + (c.toNat - 48)) 0

/-- The ASCII digit character for `d < 10`. -/
def digitChar (d : Nat) : Char :=
  if d = 0 then '0' else if d = 1 then '1' else if d = 2 then '2'
  else if d = 3 then '3' else if d = 4 then '4' else if d = 5 then '5'
  else if d = 6 then '6' else if d = 7 then '7' else if d = 8 then '8'
  else if d = 9 then '9' else '?'

/-- Decimal representation of a natural number (`String(n)` for `n ≥ 0`). -/
def natToDigits (n : Nat) : Str :=
  if _h : n < 10 then [digitChar n]
  else natToDigits (n / 10) ++ [digitChar (n % 10)]
decreasing_by exact Nat.div_lt_self (by omega) (by omega)

/-- `String(n)` for an integer JS number. -/
def jsIntToString (n : Int) : Str :=
  if n < 0 then '-' :: natToDigits n.natAbs else natToDigits n.toNat

/-- `String(n)` where the number may be the JS `NaN` (`none`). -/
def jsNumToString : Option Int → Str
  | some n => jsIntToString n
  | none => ("NaN").data

/-- `s.padStart(5, "0")`. -/
def padStart5 (s : Str) : Str := List.replicate (5 - s.length) '0' ++ s

/-- `parseInt(s, 10)` restricted to base-10 integer syntax: skip leading
whitespace, optional sign, then the longest digit run; `NaN` (`none`)
when no digit follows. -/
def jsParseInt (s : Str) : Option Int :=
  let t := s.dropWhile Char.isWhitespace
  match t with
  | '-' :: rest =>
    let ds := rest.takeWhile isDig
    if ds.isEmpty then none else some (-(digitsToNat ds : Int))
  | '+' :: rest =>
    let ds := rest.takeWhile isDig
    if ds.isEmpty then none else some ((digitsToNat ds : Int))
  | _ =>
    let ds := t.takeWhile isDig
    if ds.isEmpty then none else some ((digitsToNat ds : Int))

/-- `Number(s)` on the strings this spreadsheet actually stores: the
empty / all-whitespace string converts to `0`, an optionally signed
digit string to its value, anything else to `NaN` (`none`). -/
def jsStrToNumber (s : Str) : Option Int :=
  let t := jsTrim s
  match t with
  | [] => some 0
  | '-' :: ds => if !ds.isEmpty && ds.all isDig then some (-(digitsToNat ds : Int)) else none
  | '+' :: ds => if !ds.isEmpty && ds.all isDig then some ((digitsToNat ds : Int)) else none
  | ds => if ds.all isDig then some ((digitsToNat ds : Int)) else none

/-- `month.replace("-", "_")`: JS `replace` with a string pattern
replaces only the first occurrence. -/
def replaceFirstDash : Str → Str
  | [] => []
  | '-' :: rest => '_' :: rest
  | c :: rest => c :: replaceFirstDash rest

-- ======================= character-level lemmas =======================

theorem lowerPairs_not_ws :
    ∀ p ∈ lowerPairs, p.1.isWhitespace = false ∧ p.2.isWhitespace = false := by decide

theorem lowerPairs_snd_not_key :
    ∀ p ∈ lowerPairs, lowerPairs.find? (fun q => q.1 == p.2) = none := by decide

theorem lowerPairs_fst_not_dig : ∀ p ∈ lowerPairs, isDig p.1 = false := by decide

theorem lowerPairs_fst_ne_at : ∀ p ∈ lowerPairs, (p.1 = '@') = False := by decide

theorem lowerPairs_snd_ne_at : ∀ p ∈ lowerPairs, (p.2 = '@') = False := by decide

theorem lowerChar_whitespace (c : Char) :
    (lowerChar c).isWhitespace = c.isWhitespace := by
  unfold lowerChar
  cases h : lowerPairs.find? (fun p => p.1 == c) with
  | none => rfl
  | some p =>
    have hm := List.mem_of_find?_eq_some h
    have hk : p.1 = c := by simpa using List.find?_some h
    have := lowerPairs_not_ws p hm
    simp [← hk, this.1, this.2]

theorem lowerChar_lowerChar (c : Char) :
    lowerChar (lowerChar c) = lowerChar c := by
  unfold lowerChar
  cases h : lowerPairs.find? (fun p => p.1 == c) with
  | none => simp [h]
  | some p =>
    have hm := List.mem_of_find?_eq_some h
    simp [lowerPairs_snd_not_key p hm]

theorem lowerChar_of_isDig {c : Char} (h : isDig c = true) : lowerChar c = c := by
  unfold lowerChar
  cases hf : lowerPairs.find? (fun p => p.1 == c) with
  | none => rfl
  | some p =>
    have hm := List.mem_of_find?_eq_some hf
    have hk : p.1 = c := by simpa using List.find?_some hf
    have := lowerPairs_fst_not_dig p hm
    rw [hk] at this
    rw [this] at h
    exact absurd h (by simp)

theorem lowerChar_ne_at {c : Char} (h : ¬c = '@') : ¬lowerChar c = '@' := by
  unfold lowerChar
  cases hf : lowerPairs.find? (fun p => p.1 == c) with
  | none => simpa using h
  | some p =>
    have hm := List.mem_of_find?_eq_some hf
    have h2 := lowerPairs_snd_ne_at p hm
    simp only [Option.map_some', Option.getD_some]
    intro hx
    exact cast h2 hx

theorem toNat_ne_of_ne {c d : Char} (h : c.toNat ≠ d.toNat) : c ≠ d :=
  fun e => h (by rw [e])

theorem not_whitespace_of_isDig {c : Char} (h : isDig c = true) :
    c.isWhitespace = false := by
  simp only [isDig, decide_eq_true_eq] at h
  simp only [Char.isWhitespace]
  have h1 : c ≠ ' ' := toNat_ne_of_ne (by rw [show (' ').toNat = 32 from rfl]; omega)
  have h2 : c ≠ '\t' := toNat_ne_of_ne (by rw [show ('\t').toNat = 9 from rfl]; omega)
  have h3 : c ≠ '\r' := toNat_ne_of_ne (by rw [show ('\r').toNat = 13 from rfl]; omega)
  have h4 : c ≠ '\n' := toNat_ne_of_ne (by rw [show ('\n').toNat = 10 from rfl]; omega)
  simp [h1, h2, h3, h4]

theorem digitChar_toNat {d : Nat} (h : d < 10) : (digitChar d).toNat = 48 + d := by
  unfold digitChar
  split_ifs <;> subst_vars <;> first | decide | omega

theorem isDig_digitChar {d : Nat} (h : d < 10) : isDig (digitChar d) = true := by
  simp only [isDig, decide_eq_true_eq, digitChar_toNat h]
  omega

-- ======================= string-level lemmas =======================

theorem dropWhile_idem (p : α → Bool) (l : List α) :
    (l.dropWhile p).dropWhile p = l.dropWhile p := by
  induction l with
  | nil => rfl
  | cons c r ih =>
    by_cases h : p c = true
    · simp [List.dropWhile, h, ih]
    · simp [List.dropWhile, h]

theorem dropWhile_length_le (p : α → Bool) (l : List α) :
    (l.dropWhile p).length ≤ l.length := by
  induction l with
  | nil => rfl
  | cons c r ih =>
    by_cases h : p c = true
    · simp only [List.dropWhile, h]
      exact Nat.le_trans ih (Nat.le_succ _)
    · simp [List.dropWhile, h]

/-- If `dropWhile` leaves a list unchanged, it leaves every prefix of it
unchanged. -/
theorem dropWhile_prefix_of_self {p : α → Bool} {l y : List α}
    (hl : l.dropWhile p = l) (hy : y <+: l) : y.dropWhile p = y := by
  cases y with
  | nil => rfl
  | cons c t =>
    obtain ⟨rest, hrest⟩ := hy
    subst hrest
    have hpc : p c = false := by
      cases hx : p c
      · rfl
      · exfalso
        simp only [List.cons_append, List.dropWhile_cons, hx, if_true] at hl
        have hlen := dropWhile_length_le p (t ++ rest)
        rw [hl] at hlen
        simp at hlen
    simp [List.dropWhile_cons, hpc]

theorem trimLeft_trimLeft (s : Str) : trimLeft (trimLeft s) = trimLeft s :=
  dropWhile_idem _ _

theorem trimRight_trimRight (s : Str) : trimRight (trimRight s) = trimRight s := by
  unfold trimRight
  rw [List.reverse_reverse, trimLeft_trimLeft]

theorem trimRight_pre (s : Str) : trimRight s <+: s := by
  unfold trimRight trimLeft
  have h : s.reverse.dropWhile Char.isWhitespace <:+ s.reverse := List.dropWhile_suffix _
  have := List.reverse_prefix.mpr (by simpa using h)
  simpa using this

theorem jsTrim_jsTrim (s : Str) : jsTrim (jsTrim s) = jsTrim s := by
  unfold jsTrim
  have h1 : trimLeft (trimLeft s) = trimLeft s := trimLeft_trimLeft s
  have h2 : trimLeft (trimRight (trimLeft s)) = trimRight (trimLeft s) :=
    dropWhile_prefix_of_self h1 (trimRight_pre (trimLeft s))
  rw [h2, trimRight_trimRight]

theorem jsToLower_trimLeft (s : Str) :
    jsToLower (trimLeft s) = trimLeft (jsToLower s) := by
  unfold jsToLower trimLeft
  rw [List.dropWhile_map]
  have h : (Char.isWhitespace ∘ lowerChar) = Char.isWhitespace :=
    funext lowerChar_whitespace
  rw [h]

theorem jsToLower_trimRight (s : Str) :
    jsToLower (trimRight s) = trimRight (jsToLower s) := by
  unfold trimRight
  have h1 : jsToLower ((trimLeft s.reverse).reverse)
      = (jsToLower (trimLeft s.reverse)).reverse := by
    unfold jsToLower
    exact List.map_reverse _ _
  have h2 : (jsToLower s).reverse = jsToLower s.reverse := by
    unfold jsToLower
    exact (List.map_reverse _ _).symm
  rw [h1, jsToLower_trimLeft, h2]

theorem jsToLower_jsTrim (s : Str) : jsToLower (jsTrim s) = jsTrim (jsToLower s) := by
  unfold jsTrim
  rw [jsToLower_trimRight, jsToLower_trimLeft]

theorem jsToLower_jsToLower (s : Str) : jsToLower (jsToLower s) = jsToLower s := by
  unfold jsToLower
  rw [List.map_map]
  have h : (lowerChar ∘ lowerChar) = lowerChar := funext lowerChar_lowerChar
  rw [h]

/-- `normKey` is idempotent: re-normalising a normalised value changes
nothing. -/
theorem normKey_normKey (s : Str) : normKey (normKey s) = normKey s := by
  unfold normKey
  rw [← jsToLower_jsTrim (jsTrim s), jsToLower_jsToLower, jsTrim_jsTrim]

theorem jsTrim_of_all_isDig {s : Str} (h : s.all isDig = true) : jsTrim s = s := by
  have key : ∀ t : Str, t.all isDig = true → t.dropWhile Char.isWhitespace = t := by
    intro t ht
    cases t with
    | nil => rfl
    | cons c r =>
      have hc : isDig c = true := by
        simp only [List.all_cons, Bool.and_eq_true] at ht
        exact ht.1
      simp [List.dropWhile, not_whitespace_of_isDig hc]
  unfold jsTrim trimRight trimLeft
  rw [key s h, key s.reverse (by simpa using h), List.reverse_reverse]

theorem jsToLower_of_all_isDig {s : Str} (h : s.all isDig = true) :
    jsToLower s = s := by
  unfold jsToLower
  induction s with
  | nil => rfl
  | cons c r ih =>
    simp only [List.all_cons, Bool.and_eq_true] at h
    simp [lowerChar_of_isDig h.1, ih h.2]

theorem normKey_of_all_isDig {s : Str} (h : s.all isDig = true) : normKey s = s := by
  unfold normKey
  rw [jsTrim_of_all_isDig h, jsToLower_of_all_isDig h]

theorem filter_of_all_isDig {s : Str} (h : s.all isDig = true) :
    s.filter isDig = s := List.filter_eq_self.mpr (by simpa [List.all_eq_true] using h)

-- digit-string value lemmas

theorem digitsToNat_append_singleton (xs : Str) (c : Char) :
    digitsToNat (xs ++ [c]) = 10 * digitsToNat xs + (c.toNat - 48) := by
  unfold digitsToNat
  rw [List.foldl_append]
  simp [Nat.mul_comm]

theorem digitsToNat_natToDigits (n : Nat) : digitsToNat (natToDigits n) = n := by
  induction n using Nat.strong_induction_on with
  | _ n ih =>
    unfold natToDigits
    split_ifs with h
    · show digitsToNat ([] ++ [digitChar n]) = n
      rw [digitsToNat_append_singleton]
      unfold digitsToNat
      simp [digitChar_toNat h]
    · rw [digitsToNat_append_singleton,
        ih (n / 10) (Nat.div_lt_self (by omega) (by omega)),
        digitChar_toNat (Nat.mod_lt n (by omega))]
      omega

theorem digitsToNat_replicate_zero_append (k : Nat) (s : Str) :
    digitsToNat (List.replicate k '0' ++ s) = digitsToNat s := by
  induction k with
  | zero => rfl
  | succ m ih =>
    show digitsToNat ('0' :: (List.replicate m '0' ++ s)) = digitsToNat s
    unfold digitsToNat at ih ⊢
    simpa using ih

theorem digitsToNat_padStart5 (s : Str) : digitsToNat (padStart5 s) = digitsToNat s :=
  digitsToNat_replicate_zero_append _ _

theorem natToDigits_all_isDig (n : Nat) : (natToDigits n).all isDig = true := by
  induction n using Nat.strong_induction_on with
  | _ n ih =>
    unfold natToDigits
    split_ifs with h
    · simp [isDig_digitChar h]
    · rw [List.all_append, Bool.and_eq_true]
      exact ⟨ih (n / 10) (Nat.div_lt_self (by omega) (by omega)),
        by simp [isDig_digitChar (Nat.mod_lt n (by omega))]⟩

theorem padStart5_all_isDig {s : Str} (h : s.all isDig = true) :
    (padStart5 s).all isDig = true := by
  unfold padStart5
  rw [List.all_append, Bool.and_eq_true]
  refine ⟨?_, h⟩
  simp only [List.all_eq_true]
  intro c hc
  rw [List.eq_of_mem_replicate hc]
  decide


-- ======================= Validator (Customers module) =======================

/-- Result shape `{success, value}` returned by `_phoneValidator` and
`_emailValidator`. -/
structure VResult where
  success : Bool
  value : Option Str
deriving DecidableEq

/-- `_phoneValidator` (identical in `sandwich-api/Customers.js`,
`gas-api/Code.js` and the Customers module): reject a falsy input,
strip all non-digits (`phone.replace(NON_DIGITS_REGEX, "")`), succeed
iff exactly 10 digits remain. -/
def _phoneValidator (phone : Str) : VResult :=
  if phone.isEmpty then ⟨false, none⟩
  else
    let digitsOnly := phone.filter isDig
    if digitsOnly.length = 10 then ⟨true, some digitsOnly⟩ else ⟨false, none⟩

/-- Decision procedure for the test
`EMAIL_REGEX = /^[^\s@]+@[^\s@]+\.[^\s@]+$/`: no whitespace anywhere,
exactly one `@`, a non-empty local part, and a `.` strictly inside the
domain part (after at least one character and before at least one). -/
def emailRegexTest (s : Str) : Bool :=
  s.all (fun c => !c.isWhitespace) &&
  (s.filter (fun c => c = '@')).length == 1 &&
  (let loc := s.takeWhile (fun c => c ≠ '@')
   let domain := (s.dropWhile (fun c => c ≠ '@')).drop 1
   !loc.isEmpty && ((domain.drop 1).dropLast).contains '.')

/-- `_emailValidator`: reject falsy input, trim and lowercase, then test
`EMAIL_REGEX` on the cleaned value. -/
def _emailValidator (email : Str) : VResult :=
  if email.isEmpty then ⟨false, none⟩
  else
    let trimmed := jsToLower (jsTrim email)
    if emailRegexTest trimmed then ⟨true, some trimmed⟩ else ⟨false, none⟩

/-- `CUSTOMER_ID_REGEX = /^C\d{5}$/`. -/
def _customerIdIsValid (customerId : Str) : Bool :=
  match customerId with
  | 'C' :: rest => rest.length == 5 && rest.all isDig
  | _ => false

-- ======================= Sale status =======================

/-- `_calculateSaleStatus` from `gas-api/Sales.js`: `Paid` when
`amountPaid >= totalPrice`, else `Partial` when `amountPaid > 0`, else
`Unpaid`. -/
def _calculateSaleStatus (totalPrice amountPaid : Int) : Str :=
  if amountPaid ≥ totalPrice then ("Paid").data
  else if amountPaid > 0 then ("Partial").data
  else ("Unpaid").data

-- ======================= Claim C1 =======================

/-- C1 counterexample: at `total_price = 0`, `amount_paid = 0` (a pair
allowed by the claim's hypothesis `0 ≤ amount_paid ≤ total_price`) the
computed status is `Paid`, not `Unpaid`, although `amount_paid = 0` —
so "`Unpaid` if and only if `amount_paid = 0`" fails as stated. -/
theorem C1_counterexample :
    (0 : Int) ≤ 0 ∧ (0 : Int) ≤ 0 ∧ (0 : Int) = 0 ∧
    _calculateSaleStatus 0 0 = ("Paid").data ∧
    ("Paid").data ≠ ("Unpaid").data := by decide

/-- C1 (amended): for every pair with `0 ≤ amount_paid ≤ total_price`
and a positive `total_price`, the status is `Paid` iff
`amount_paid ≥ total_price`, `Partial` iff `0 < amount_paid < total_price`,
and `Unpaid` iff `amount_paid = 0`. -/
theorem C1_amended (tp ap : Int) (h0 : 0 ≤ ap) (h1 : ap ≤ tp) (h2 : 0 < tp) :
    (_calculateSaleStatus tp ap = ("Paid").data ↔ ap ≥ tp) ∧
    (_calculateSaleStatus tp ap = ("Partial").data ↔ 0 < ap ∧ ap < tp) ∧
    (_calculateSaleStatus tp ap = ("Unpaid").data ↔ ap = 0) := by
  unfold _calculateSaleStatus
  split_ifs with hge hpos
  · exact ⟨iff_of_true rfl hge,
      iff_of_false (by decide) (by omega),
      iff_of_false (by decide) (by omega)⟩
  · exact ⟨iff_of_false (by decide) (by omega),
      iff_of_true rfl ⟨hpos, by omega⟩,
      iff_of_false (by decide) (by omega)⟩
  · exact ⟨iff_of_false (by decide) (by omega),
      iff_of_false (by decide) (by omega),
      iff_of_true rfl (by omega)⟩

/-- Witness for `C1_amended` at `total_price = 15000`, `amount_paid = 10000`. -/
theorem C1_amended_witness :
    (_calculateSaleStatus 15000 10000 = ("Paid").data ↔ (10000 : Int) ≥ 15000) ∧
    (_calculateSaleStatus 15000 10000 = ("Partial").data ↔
      (0 : Int) < 10000 ∧ (10000 : Int) < 15000) ∧
    (_calculateSaleStatus 15000 10000 = ("Unpaid").data ↔ (10000 : Int) = 0) :=
  C1_amended 15000 10000 (by decide) (by decide) (by decide)

-- ======================= Claim C3 =======================

/-- C3 counterexample: the 11-digit input `"15550123456"` whose first
digit is `1` is rejected by `_phoneValidator` (the claim says it is
accepted and normalised to the trailing 10 digits). -/
theorem C3_counterexample :
    (_phoneValidator ("15550123456").data).success = false ∧
    (_phoneValidator ("15550123456").data).value = none := by decide

/-- C3 (amended): `_phoneValidator` strips all non-digit characters and
succeeds, returning exactly the stripped digits, if and only if exactly
10 digits remain; no leading country-code `1` is stripped, so 11-digit
inputs are always rejected. -/
theorem C3_amended (s : Str) :
    ((_phoneValidator s).success = true ↔ (s.filter isDig).length = 10) ∧
    (_phoneValidator s).value =
      (if (s.filter isDig).length = 10 then some (s.filter isDig) else none) := by
  unfold _phoneValidator
  cases s with
  | nil => simp
  | cons c t =>
    simp only [List.isEmpty_cons, if_false, Bool.false_eq_true]
    split_ifs with h <;> simp_all

-- ======================= Spreadsheet model =======================

/-- A spreadsheet cell: a numeric value, the JS `NaN`, or a string. -/
inductive Cell where
  | num (n : Int)
  | nan
  | str (s : Str)
deriving DecidableEq

/-- JS falsiness of a cell value (`0`, `NaN` and `""` are falsy). -/
def cellFalsy : Cell → Bool
  | .num n => n = 0
  | .nan => true
  | .str s => s.isEmpty

/-- `v || ""`: the row-serialisation step applied to every cell. -/
def cellOrEmpty (c : Cell) : Cell := if cellFalsy c then .str [] else c

/-- `parseInt(cell, 10)`: a number cell reparses to itself, `NaN`
stays `NaN`, a string cell is parsed. -/
def cellParseInt : Cell → Option Int
  | .num n => some n
  | .nan => none
  | .str s => jsParseInt s

/-- `Number(row[idx])` where the cell may be missing (`undefined`,
which converts to `NaN`). -/
def cellNumber : Option Cell → Option Int
  | none => none
  | some (.num n) => some n
  | some .nan => none
  | some (.str s) => jsStrToNumber s

/-- A customer row under the fixed `customers` schema
(`customer_id, first_name, last_name, phone, email, registered_at`);
every cell the code writes into this sheet is a string. -/
structure Customer where
  customer_id : Str
  first_name : Str
  last_name : Str
  phone : Str
  email : Str
  registered_at : Str
deriving DecidableEq

/-- A generic sheet: header row plus data rows. -/
structure Sheet where
  header : List Str
  rows : List (List Cell)
deriving DecidableEq

/-- The whole spreadsheet: the fixed sheets as fields, and the monthly
`sales_YYYY_MM` sheets as a name-keyed list (in insertion order, as
`getSheets()` returns them). `none` models a missing sheet. -/
structure Store where
  customers : List Customer
  settings : Option (List (Str × Cell))
  sales : List (Str × Sheet)
  summary : Option (List (List Cell))
deriving DecidableEq

def customersHeader : List Str :=
  [("customer_id").data, ("first_name").data, ("last_name").data,
   ("phone").data, ("email").data, ("registered_at").data]

/-- Duck-typed access `row[headers.indexOf(col)]` under the fixed
customers schema (callers check column existence separately). -/
def customerField (col : Str) (c : Customer) : Str :=
  if col = ("customer_id").data then c.customer_id
  else if col = ("first_name").data then c.first_name
  else if col = ("last_name").data then c.last_name
  else if col = ("phone").data then c.phone
  else if col = ("email").data then c.email
  else c.registered_at

-- ======================= Customer finders =======================

/-- The scan inside `_findCustomerAndIndexBy`: first row whose
normalised cell equals the normalised needle; returns the 1-based sheet
row index (data index + 2). -/
def _findCustomerAndIndexByAux (col : Str) (nv : Str) :
    List Customer → Nat → Option (Customer × Nat)
  | [], _ => none
  | c :: rest, i =>
    if normKey (customerField col c) = nv then some (c, i + 2)
    else _findCustomerAndIndexByAux col nv rest (i + 1)

/-- `_findCustomerAndIndexBy(columnName, value)`: `null` when the
column is not in the header, else the first normalised match. -/
def _findCustomerAndIndexBy (col : Str) (value : Str) (rows : List Customer) :
    Option (Customer × Nat) :=
  if customersHeader.contains col then
    _findCustomerAndIndexByAux col (normKey value) rows 0
  else none

/-- `_findCustomerBy`: the customer only. -/
def _findCustomerBy (col : Str) (value : Str) (rows : List Customer) :
    Option Customer :=
  (_findCustomerAndIndexBy col value rows).map Prod.fst

/-- `findCustomerByPhone`: normalise via `_phoneValidator`; `null`
immediately when normalisation fails. -/
def findCustomerByPhone (rows : List Customer) (phone : Str) : Option Customer :=
  match (_phoneValidator phone).value with
  | none => none
  | some np => if np.isEmpty then none else _findCustomerBy ("phone").data np rows

/-- `findCustomerByEmail`: normalise via `_emailValidator`; `null`
immediately when normalisation fails. -/
def findCustomerByEmail (rows : List Customer) (email : Str) : Option Customer :=
  match (_emailValidator email).value with
  | none => none
  | some ne => if ne.isEmpty then none else _findCustomerBy ("email").data ne rows

/-- `findCustomerById` (Customers module version): `null` for a
malformed id without searching. -/
def findCustomerById (rows : List Customer) (customerId : Str) : Option Customer :=
  if !_customerIdIsValid customerId then none
  else _findCustomerBy ("customer_id").data customerId rows

/-- `_customerExists`. -/
def _customerExists (rows : List Customer) (customerId : Str) : Bool :=
  (findCustomerById rows customerId).isSome

-- ======================= Identity allocators =======================

/-- The settings-sheet scan shared by `_generateNextCustomerId` and
`_generateNextSaleId`: find the first row whose key cell equals `key`,
`parseInt` its value, add 1 (`NaN` propagates) and `setValue` the sum
back into the value cell. `none` when the key row is missing. -/
def allocFromSettings (key : Str) :
    List (Str × Cell) → Option (Option Int × List (Str × Cell))
  | [] => none
  | (k, v) :: rest =>
    if k = key then
      let nextIdNum := (cellParseInt v).map (· + 1)
      some (nextIdNum,
        (k, match nextIdNum with | some n => Cell.num n | none => Cell.nan) :: rest)
    else
      (allocFromSettings key rest).map (fun r => (r.1, (k, v) :: r.2))

/-- `_generateNextCustomerId`: counter-based allocation against the
`settings` sheet. A missing sheet or key throws and is re-thrown by the
catch block as a generic allocation failure; note that a non-numeric
counter value does NOT throw — `parseInt` yields `NaN` and the returned
id is `"C" + String(NaN).padStart(5, "0") = "C00NaN"`. -/
def _generateNextCustomerId (st : Store) : Except Str (Str × Store) :=
  match st.settings with
  | none => .error ("Failed to generate a new customer ID.").data
  | some rows =>
    match allocFromSettings ("last_customer_id_number").data rows with
    | none => .error ("Failed to generate a new customer ID.").data
    | some (nextIdNum, rows2) =>
      .ok ('C' :: padStart5 (jsNumToString nextIdNum), { st with settings := some rows2 })

/-- `_generateNextSaleId` from `gas-api/Sales.js`: same counter scheme
with the `last_sale_id_number` key and an `S` prefix. -/
def _generateNextSaleId (st : Store) : Except Str (Str × Store) :=
  match st.settings with
  | none => .error ("Failed to generate a new sale ID.").data
  | some rows =>
    match allocFromSettings ("last_sale_id_number").data rows with
    | none => .error ("Failed to generate a new sale ID.").data
    | some (nextIdNum, rows2) =>
      .ok ('S' :: padStart5 (jsNumToString nextIdNum), { st with settings := some rows2 })

-- ======================= Customer registry operations =======================

/-- JS falsiness of an optional string argument (`undefined`/`null`/`""`). -/
def optFalsy : Option Str → Bool
  | none => true
  | some s => s.isEmpty

/-- Step 2 (email part) of `registerCustomer`: absent or empty email
yields the "not provided" empty string; otherwise `_emailValidator`
must succeed and its value is used. -/
def registerCustomerEmail : Option Str → Except Str Str
  | none => .ok []
  | some e =>
    if e.isEmpty then .ok []
    else
      if !(_emailValidator e).success then .error ("Invalid email format").data
      else .ok ((_emailValidator e).value.getD [])

/-- Steps 3–4 of `registerCustomer` (duplicate checks, id allocation,
row append), after the fields have been normalised. On the fixed string
schema the row serialisation `headers.map(h => newCustomer[h] || "")`
is the identity on the record, so the appended row is the record
itself. -/
def registerCustomerFinish (st : Store) (cleanFirst cleanLast normalizedPhone
    normalizedEmail nowIso : Str) : Except Str Customer × Store :=
  if (findCustomerByPhone st.customers normalizedPhone).isSome then
    (.error ("Customer with this phone number already exists").data, st)
  else if !normalizedEmail.isEmpty &&
      (findCustomerByEmail st.customers normalizedEmail).isSome then
    (.error ("Customer with this email already exists").data, st)
  else
    match _generateNextCustomerId st with
    | .error m => (.error m, st)
    | .ok (customerId, st2) =>
      let newCustomer : Customer :=
        { customer_id := customerId
          first_name := cleanFirst
          last_name := cleanLast
          phone := normalizedPhone
          email := normalizedEmail
          registered_at := nowIso }
      (.ok newCustomer, { st2 with customers := st2.customers ++ [newCustomer] })

/-- `registerCustomer({first_name, last_name, phone, email})` from the
Customers module: trim names, require the three mandatory fields,
validate phone and (when given) email, reject duplicates by phone then
email, then allocate an id and append the record (the stages are the
named helpers above, in source order). -/
def registerCustomer (st : Store) (first_name last_name phone email : Option Str)
    (nowIso : Str) : Except Str Customer × Store :=
  if optFalsy (first_name.map jsTrim) || optFalsy (last_name.map jsTrim) ||
      optFalsy phone then
    (.error ("Fields first_name, last_name, and phone are required").data, st)
  else if !(_phoneValidator (phone.getD [])).success then
    (.error ("Phone number must be 10 digits").data, st)
  else
    match registerCustomerEmail email with
    | .error m => (.error m, st)
    | .ok normalizedEmail =>
      registerCustomerFinish st ((first_name.map jsTrim).getD [])
        ((last_name.map jsTrim).getD [])
        ((_phoneValidator (phone.getD [])).value.getD []) normalizedEmail nowIso

/-- The update payload: `customer_id` plus the optional updatable
fields (`none` models an absent / `null` / `undefined` key, which the
loop skips). -/
structure UpdatePayload where
  customer_id : Str
  first_name : Option Str
  last_name : Option Str
  phone : Option Str
  email : Option Str
deriving DecidableEq

/-- The `case "first_name"` arm of the update loop: trim, no further
validation. -/
def updateCustomerFirst (c : Customer) : Option Str → Customer
  | none => c
  | some v => { c with first_name := jsTrim v }

/-- The `case "last_name"` arm: trim, no further validation. -/
def updateCustomerLast (c : Customer) : Option Str → Customer
  | none => c
  | some v => { c with last_name := jsTrim v }

/-- The `case "phone"` arm: validate, reject when the first duplicate
found belongs to a different `customer_id`, else merge. -/
def updateCustomerPhone (st : Store) (inputId : Str) (c : Customer) :
    Option Str → Except Str Customer
  | none => .ok c
  | some v =>
    if !(_phoneValidator v).success then
      .error ("Phone number must be 10 digits.").data
    else
      match findCustomerByPhone st.customers ((_phoneValidator v).value.getD []) with
      | some dup =>
        if dup.customer_id ≠ inputId then .error ("Phone number already exists.").data
        else .ok { c with phone := (_phoneValidator v).value.getD [] }
      | none => .ok { c with phone := (_phoneValidator v).value.getD [] }

/-- The `case "email"` arm: validate, reject when the first duplicate
found belongs to a different `customer_id`, else merge. -/
def updateCustomerEmailF (st : Store) (inputId : Str) (c : Customer) :
    Option Str → Except Str Customer
  | none => .ok c
  | some v =>
    if !(_emailValidator v).success then
      .error ("Invalid email format.").data
    else
      match findCustomerByEmail st.customers ((_emailValidator v).value.getD []) with
      | some dup =>
        if dup.customer_id ≠ inputId then .error ("Email already exists.").data
        else .ok { c with email := (_emailValidator v).value.getD [] }
      | none => .ok { c with email := (_emailValidator v).value.getD [] }

/-- `updateCustomer(updateData)` from the Customers module: require and
format-check `customer_id`, locate the row, then process each provided
field in turn (the `for..in` loop, here in the fixed field order
`first_name, last_name, phone, email` — the order only affects which
error is reported first) via the arm helpers above. Only after all
fields succeed is the single row rewritten (at `rowIndex`, i.e. list
position `rowIndex - 2`); any failure leaves the sheet untouched. -/
def updateCustomerFinish2 (st : Store) (p : UpdatePayload) (rowIndex : Nat)
    (c3 : Customer) : Except Str Customer × Store :=
  match updateCustomerEmailF st p.customer_id c3 p.email with
  | .error m => (.error m, st)
  | .ok updatedCustomer =>
    (.ok updatedCustomer,
      { st with customers := st.customers.set (rowIndex - 2) updatedCustomer })

def updateCustomerFinish (st : Store) (p : UpdatePayload) (customer : Customer)
    (rowIndex : Nat) : Except Str Customer × Store :=
  match updateCustomerPhone st p.customer_id
      (updateCustomerLast (updateCustomerFirst customer p.first_name) p.last_name)
      p.phone with
  | .error m => (.error m, st)
  | .ok c3 => updateCustomerFinish2 st p rowIndex c3

def updateCustomer (st : Store) (p : UpdatePayload) : Except Str Customer × Store :=
  if p.customer_id.isEmpty then
    (.error ("customer_id is required for updates.").data, st)
  else if !_customerIdIsValid p.customer_id then
    (.error ("Invalid format for customer_id").data, st)
  else
    match _findCustomerAndIndexBy ("customer_id").data p.customer_id st.customers with
    | none => (.error ("Customer not found.").data, st)
    | some (customer, rowIndex) => updateCustomerFinish st p customer rowIndex

-- ======================= Sale ledger =======================

def DEFAULT_UNIT_PRICE : Int := 15000

/-- A sale record as `registerSale` constructs it. -/
structure SaleRec where
  sale_id : Str
  customer_id : Str
  quantity : Int
  unit_price : Int
  total_price : Int
  amount_paid : Int
  pending_balance : Int
  status : Str
  sale_datetime : Str
  last_payment_datetime : Str
deriving DecidableEq

def salesHeader : List Str :=
  [("sale_id").data, ("customer_id").data, ("quantity").data, ("unit_price").data,
   ("total_price").data, ("amount_paid").data, ("pending_balance").data,
   ("status").data, ("sale_datetime").data, ("last_payment_datetime").data]

/-- Duck-typed `newSale[header]`; an unknown header reads `undefined`,
which `|| ""` maps to the empty string, modelled as an empty string
cell directly. -/
def saleField (s : SaleRec) (h : Str) : Cell :=
  if h = ("sale_id").data then .str s.sale_id
  else if h = ("customer_id").data then .str s.customer_id
  else if h = ("quantity").data then .num s.quantity
  else if h = ("unit_price").data then .num s.unit_price
  else if h = ("total_price").data then .num s.total_price
  else if h = ("amount_paid").data then .num s.amount_paid
  else if h = ("pending_balance").data then .num s.pending_balance
  else if h = ("status").data then .str s.status
  else if h = ("sale_datetime").data then .str s.sale_datetime
  else if h = ("last_payment_datetime").data then .str s.last_payment_datetime
  else .str []

/-- `headers.map(header => newSale[header] || "")`. -/
def saleRow (header : List Str) (s : SaleRec) : List Cell :=
  header.map (fun h => cellOrEmpty (saleField s h))

/-- Sheet name for a month: `"sales_" + month.replace("-", "_")`. -/
def monthSheetName (month : Str) : Str := ("sales_").data ++ replaceFirstDash month

def sheetLookup (sales : List (Str × Sheet)) (name : Str) : Option Sheet :=
  (sales.find? (fun p => decide (p.1 = name))).map Prod.snd

/-- Replace the first sheet with the given name (sheet names are unique
in a spreadsheet). -/
def setSheetRows : List (Str × Sheet) → Str → Sheet → List (Str × Sheet)
  | [], _, _ => []
  | (n, s) :: rest, name, sh =>
    if n = name then (n, sh) :: rest else (n, s) :: setSheetRows rest name sh

/-- `_getSalesSheetForMonth`: fetch the month's sheet, creating it (with
the standard header and no data rows, appended at the end of the sheet
list) when absent. -/
def _getSalesSheetForMonth (st : Store) (month : Str) : Sheet × Store :=
  let name := monthSheetName month
  match sheetLookup st.sales name with
  | some sh => (sh, st)
  | none =>
    let sh : Sheet := { header := salesHeader, rows := [] }
    (sh, { st with sales := st.sales ++ [(name, sh)] })

/-- `_validateSale(customerId, quantity, amountPaid)`: the thrown error
message (as `some msg`) or `none` when every check passes, in source
order. The numeric inputs are JS numbers (`Rat`) or `null`/`undefined`
(`none`); the `typeof !== "number"` branch is subsumed by this typing. -/
def _validateSale (st : Store) (customerId : Str) (quantity amountPaid : Option Rat) :
    Option Str :=
  if customerId.isEmpty || quantity.isNone || amountPaid.isNone then
    some ("Missing required fields: customerId, quantity, amountPaid").data
  else if !_customerIdIsValid customerId then
    some ("Customer ID is not in the correct format.").data
  else if !_customerExists st.customers customerId then
    some ("Customer with given ID does not exist.").data
  else
    let q := quantity.getD 0
    let a := amountPaid.getD 0
    if !(q.isInt && a.isInt) then
      some ("Quantity and amountPaid must be integers.").data
    else if q ≤ 0 then
      some ("Quantity must be greater than 0.").data
    else if a < 0 then
      some ("Amount paid cannot be a negative number.").data
    else if a > q * ((DEFAULT_UNIT_PRICE : Int) : Rat) then
      some ("Amount paid cannot be greater than the total price.").data
    else none

/-- `registerSale(customerId, quantity, amountPaid)`: validate (before
any mutation), compute prices and status, get-or-create the month's
sheet, allocate a sale id (a failure here surfaces as an error, after
the sheet creation has already persisted), build the sale object and
append its serialised row to the sheet. `month`/`nowIso` stand for the
formatted `new Date()`. -/
def registerSale (st : Store) (customerId : Str) (quantity amountPaid : Option Rat)
    (month nowIso : Str) : Except Str SaleRec × Store :=
  match _validateSale st customerId quantity amountPaid with
  | some msg => (.error msg, st)
  | none =>
    let q : Int := (quantity.getD 0).num
    let a : Int := (amountPaid.getD 0).num
    let totalPrice := q * DEFAULT_UNIT_PRICE
    let pendingBalance := totalPrice - a
    let status := _calculateSaleStatus totalPrice a
    let pair := _getSalesSheetForMonth st month
    match _generateNextSaleId pair.2 with
    | .error m => (.error m, pair.2)
    | .ok (saleId, st2) =>
      let newSale : SaleRec :=
        { sale_id := saleId
          customer_id := customerId
          quantity := q
          unit_price := DEFAULT_UNIT_PRICE
          total_price := totalPrice
          amount_paid := a
          pending_balance := pendingBalance
          status := status
          sale_datetime := nowIso
          last_payment_datetime := nowIso }
      let newRow := saleRow pair.1.header newSale
      let sheet2 : Sheet := { pair.1 with rows := pair.1.rows ++ [newRow] }
      (.ok newSale, { st2 with sales := setSheetRows st2.sales (monthSheetName month) sheet2 })

-- ======================= Summary aggregator =======================

/-- Whether the pattern `sales_\d{4}_\d{2}` matches at the start of the
string. -/
def salesPatHere : Str → Bool
  | 's' :: 'a' :: 'l' :: 'e' :: 's' :: '_' :: a :: b :: c :: d :: '_' :: e :: f :: _ =>
    isDig a && isDig b && isDig c && isDig d && isDig e && isDig f
  | _ => false

/-- The unanchored regex test `/sales_\d{4}_\d{2}/.test(name)`. -/
def salesNameMatches : Str → Bool
  | [] => false
  | c :: rest => salesPatHere (c :: rest) || salesNameMatches rest

/-- JS-object insertion `map[k] = v`: overwrite an existing key in
place, otherwise append. -/
def mapUpsert (m : List (Str × Str)) (k v : Str) : List (Str × Str) :=
  if m.any (fun p => decide (p.1 = k)) then
    m.map (fun p => if p.1 = k then (k, v) else p)
  else m ++ [(k, v)]

/-- One iteration of the `allSheets.forEach` body in
`updateSalesSummary`: skip non-matching names; an empty segment is
`settled`; a segment without a `pending_balance` header is skipped
(warned about, not mapped); otherwise `pending` iff some row's
`pending_balance` cell converts to a number `> 0`. -/
def summaryStep (m : List (Str × Str)) (p : Str × Sheet) : List (Str × Str) :=
  if salesNameMatches p.1 then
    if p.2.rows.isEmpty then mapUpsert m p.1 ("settled").data
    else
      match p.2.header.findIdx? (fun h => decide (h = ("pending_balance").data)) with
      | none => m
      | some idx =>
        let hasPending := p.2.rows.any (fun row =>
          match cellNumber row[idx]? with
          | some n => decide (0 < n)
          | none => false)
        mapUpsert m p.1 (if hasPending then ("pending").data else ("settled").data)
  else m

def summaryHeaderRow : List Cell :=
  [.str ("month").data, .str ("status").data, .str ("last_updated_at").data]

/-- `updateSalesSummary()` from `gas-api/Summary.js`: with no
`sales_summary` sheet it only logs and returns; otherwise it scans all
sheets (only the monthly `sales_*` names can match the pattern — the
fixed sheet names contain no digits), builds the month-status map, then
clears the summary sheet and rewrites the header row followed by one
row per mapped month, stamped with the formatted run time `nowFmt`. -/
def updateSalesSummary (st : Store) (nowFmt : Str) : Store :=
  match st.summary with
  | none => st
  | some _ =>
    let monthStatusMap := st.sales.foldl summaryStep []
    { st with summary := some (summaryHeaderRow ::
        monthStatusMap.map (fun p => [Cell.str p.1, Cell.str p.2, Cell.str nowFmt])) }

-- ======================= validator specification lemmas =======================

/-- Normal form of `_phoneValidator` (definitional). -/
theorem phoneValidator_eq (s : Str) :
    _phoneValidator s =
      (if s.isEmpty then ⟨false, none⟩
       else if (s.filter isDig).length = 10 then ⟨true, some (s.filter isDig)⟩
       else ⟨false, none⟩) := rfl

/-- Normal form of `_emailValidator` (definitional). -/
theorem emailValidator_eq (e : Str) :
    _emailValidator e =
      (if e.isEmpty then ⟨false, none⟩
       else if emailRegexTest (jsToLower (jsTrim e)) then
         ⟨true, some (jsToLower (jsTrim e))⟩
       else ⟨false, none⟩) := rfl

theorem phoneValidator_value_spec {s v : Str} (h : (_phoneValidator s).value = some v) :
    v = s.filter isDig ∧ v.all isDig = true ∧ v.length = 10 := by
  rw [phoneValidator_eq] at h
  by_cases h1 : s.isEmpty
  · rw [if_pos h1] at h
    exact absurd h (by simp)
  · rw [if_neg h1] at h
    by_cases h2 : (s.filter isDig).length = 10
    · rw [if_pos h2] at h
      have h' : List.filter isDig s = v := by simpa using h
      subst h'
      refine ⟨rfl, ?_, h2⟩
      simp only [List.all_eq_true]
      intro c hc
      exact (List.mem_filter.mp hc).2
    · rw [if_neg h2] at h
      exact absurd h (by simp)

theorem phoneValidator_success_value {s : Str} (h : (_phoneValidator s).success = true) :
    (_phoneValidator s).value = some (s.filter isDig) := by
  rw [phoneValidator_eq] at h ⊢
  split_ifs at h ⊢ <;> simp_all

theorem emailRegexTest_ne_nil {s : Str} (h : emailRegexTest s = true) : s ≠ [] := by
  intro hs
  subst hs
  simp [emailRegexTest] at h

theorem emailValidator_value_spec {e v : Str} (h : (_emailValidator e).value = some v) :
    v = jsToLower (jsTrim e) ∧ emailRegexTest v = true ∧ normKey v = v ∧ v ≠ [] := by
  rw [emailValidator_eq] at h
  by_cases h1 : e.isEmpty
  · rw [if_pos h1] at h
    exact absurd h (by simp)
  · rw [if_neg h1] at h
    by_cases h2 : emailRegexTest (jsToLower (jsTrim e)) = true
    · rw [if_pos h2] at h
      have h' : jsToLower (jsTrim e) = v := by simpa using h
      subst h'
      refine ⟨rfl, h2, ?_, emailRegexTest_ne_nil h2⟩
      show normKey (normKey e) = normKey e
      exact normKey_normKey e
    · rw [if_neg h2] at h
      exact absurd h (by simp)

/-- A normalised phone value is fixed by `normKey` and revalidates to
itself, so `findCustomerByPhone` really searches for it. -/
theorem phoneValidator_idem {v : Str} (hd : v.all isDig = true) (hl : v.length = 10) :
    (_phoneValidator v).value = some v := by
  rw [phoneValidator_eq]
  have hne : v.isEmpty = false := by
    cases v
    · simp at hl
    · rfl
  rw [hne, filter_of_all_isDig hd]
  simp [hl]

/-- A normalised email value revalidates to itself. -/
theorem emailValidator_idem {v : Str} (ht : emailRegexTest v = true)
    (hn : normKey v = v) : (_emailValidator v).value = some v := by
  rw [emailValidator_eq]
  have hne : v.isEmpty = false := by
    cases hv : v
    · exact absurd (hv ▸ ht) (by simp [emailRegexTest])
    · rfl
  have hfix : jsToLower (jsTrim v) = v := hn
  rw [hne, hfix]
  simp [ht]

theorem normKey_lower_fixed {s : Str} (h : normKey s = s) : jsToLower s = s := by
  conv_lhs => rw [← h]
  unfold normKey
  rw [jsToLower_jsToLower]
  exact h

-- ======================= finder lemmas =======================

theorem findAux_eq_none_iff {col nv : Str} {rows : List Customer} {i : Nat} :
    _findCustomerAndIndexByAux col nv rows i = none ↔
      ∀ c ∈ rows, normKey (customerField col c) ≠ nv := by
  induction rows generalizing i with
  | nil => simp [_findCustomerAndIndexByAux]
  | cons c rest ih =>
    unfold _findCustomerAndIndexByAux
    split_ifs with h
    · simp [h]
    · simp only [List.mem_cons]
      rw [ih]
      constructor
      · rintro ha x (rfl | hx)
        · exact h
        · exact ha x hx
      · intro ha x hx
        exact ha x (Or.inr hx)

theorem findAux_some_spec {col nv : Str} {rows : List Customer} {i : Nat}
    {c : Customer} {j : Nat}
    (h : _findCustomerAndIndexByAux col nv rows i = some (c, j)) :
    ∃ idx, j = i + idx + 2 ∧ rows[idx]? = some c ∧
      normKey (customerField col c) = nv := by
  induction rows generalizing i with
  | nil => simp [_findCustomerAndIndexByAux] at h
  | cons c0 rest ih =>
    unfold _findCustomerAndIndexByAux at h
    split_ifs at h with hh
    · simp only [Option.some.injEq, Prod.mk.injEq] at h
      exact ⟨0, by omega, by simp [h.1], h.1 ▸ hh⟩
    · obtain ⟨idx, hj, hget, hnk⟩ := ih h
      exact ⟨idx + 1, by omega, by simpa using hget, hnk⟩

theorem findCustomerBy_eq_none_iff {col value : Str} {rows : List Customer}
    (hcol : customersHeader.contains col = true) :
    _findCustomerBy col value rows = none ↔
      ∀ c ∈ rows, normKey (customerField col c) ≠ normKey value := by
  unfold _findCustomerBy _findCustomerAndIndexBy
  rw [hcol]
  simp only [if_true, Option.map_eq_none']
  exact findAux_eq_none_iff

theorem findCustomerBy_some_spec {col value : Str} {rows : List Customer}
    {c : Customer} (h : _findCustomerBy col value rows = some c) :
    c ∈ rows ∧ normKey (customerField col c) = normKey value := by
  unfold _findCustomerBy _findCustomerAndIndexBy at h
  split_ifs at h with hcol
  · simp only [Option.map_eq_some'] at h
    obtain ⟨⟨c', j⟩, hfind, hc⟩ := h
    simp only at hc
    subst hc
    obtain ⟨idx, _, hget, hnk⟩ := findAux_some_spec hfind
    exact ⟨List.getElem?_mem hget, hnk⟩
  · simp at h

-- ======================= operation characterisations =======================

theorem generateNextCustomerId_ok_shape {st : Store} {id : Str} {st2 : Store}
    (h : _generateNextCustomerId st = .ok (id, st2)) :
    st2.customers = st.customers ∧ st2.sales = st.sales ∧ st2.summary = st.summary := by
  unfold _generateNextCustomerId at h
  split at h
  · exact absurd h (by simp)
  · split at h
    · exact absurd h (by simp)
    · simp only [Except.ok.injEq, Prod.mk.injEq] at h
      rw [← h.2]
      exact ⟨rfl, rfl, rfl⟩

theorem emailValidator_success_value {e : Str} (h : (_emailValidator e).success = true) :
    (_emailValidator e).value = some (jsToLower (jsTrim e)) := by
  rw [emailValidator_eq] at h ⊢
  split_ifs at h ⊢ <;> simp_all

theorem phoneValidator_success_length {s : Str}
    (h : (_phoneValidator s).success = true) : (s.filter isDig).length = 10 := by
  rw [phoneValidator_eq] at h
  split_ifs at h <;> simp_all

theorem registerCustomerEmail_some (e : Str) :
    registerCustomerEmail (some e) =
      (if e.isEmpty then .ok []
       else if !(_emailValidator e).success then
         .error ("Invalid email format").data
       else .ok ((_emailValidator e).value.getD [])) := rfl

theorem registerCustomerEmail_ok {em : Option Str} {ne : Str}
    (h : registerCustomerEmail em = .ok ne) :
    ne = [] ∨ (emailRegexTest ne = true ∧ normKey ne = ne) := by
  cases em with
  | none =>
    refine Or.inl ?_
    simpa [registerCustomerEmail] using h.symm
  | some e =>
    rw [registerCustomerEmail_some] at h
    by_cases he : e.isEmpty
    · rw [if_pos he] at h
      refine Or.inl ?_
      simpa using h.symm
    · rw [if_neg he] at h
      by_cases hv : (!(_emailValidator e).success) = true
      · rw [if_pos hv] at h
        exact absurd h (by simp)
      · rw [if_neg hv] at h
        have hs : (_emailValidator e).success = true := by simpa using hv
        have hw := emailValidator_success_value hs
        have hne : jsToLower (jsTrim e) = ne := by simpa [hw] using h
        obtain ⟨_, ht, hnk, _⟩ := emailValidator_value_spec (hne ▸ hw)
        exact Or.inr ⟨ht, hnk⟩

theorem registerCustomerFinish_cases (st : Store) (cf cl np ne now : Str) :
    (registerCustomerFinish st cf cl np ne now).2 = st ∨
    (∃ c st2, registerCustomerFinish st cf cl np ne now =
        (.ok c, { st2 with customers := st2.customers ++ [c] }) ∧
      _generateNextCustomerId st = .ok (c.customer_id, st2) ∧
      c.first_name = cf ∧ c.last_name = cl ∧ c.phone = np ∧ c.email = ne ∧
      c.registered_at = now ∧
      findCustomerByPhone st.customers np = none ∧
      (ne = [] ∨ findCustomerByEmail st.customers ne = none)) := by
  unfold registerCustomerFinish
  by_cases h1 : (findCustomerByPhone st.customers np).isSome = true
  · rw [if_pos h1]
    exact Or.inl rfl
  · rw [if_neg h1]
    by_cases h2 : (!ne.isEmpty && (findCustomerByEmail st.customers ne).isSome) = true
    · rw [if_pos h2]
      exact Or.inl rfl
    · rw [if_neg h2]
      cases hg : _generateNextCustomerId st with
      | error m =>
        exact Or.inl rfl
      | ok p =>
        obtain ⟨cid, st2⟩ := p
        refine Or.inr ⟨_, st2, rfl, rfl, rfl, rfl, rfl, rfl, rfl, ?_, ?_⟩
        · simpa using h1
        · by_cases hne : ne = []
          · exact Or.inl hne
          · refine Or.inr ?_
            have h2' : ¬ne = [] → findCustomerByEmail st.customers ne = none := by
              simpa using h2
            exact h2' hne

/-- Branch analysis of `registerCustomer`: either it fails and leaves
the store unchanged, or it succeeds, having validated the phone, found
no duplicate phone, validated the email (or defaulted it empty) with no
duplicate email, allocated an id, and appended the record. -/
theorem registerCustomer_cases (st : Store) (f l ph em : Option Str) (now : Str) :
    (registerCustomer st f l ph em now).2 = st ∨
    (∃ c st2, registerCustomer st f l ph em now =
        (.ok c, { st2 with customers := st2.customers ++ [c] }) ∧
      _generateNextCustomerId st = .ok (c.customer_id, st2) ∧
      c.phone.all isDig = true ∧ c.phone.length = 10 ∧
      findCustomerByPhone st.customers c.phone = none ∧
      (c.email = [] ∨ (emailRegexTest c.email = true ∧ normKey c.email = c.email ∧
        findCustomerByEmail st.customers c.email = none)) ∧
      c.registered_at = now) := by
  unfold registerCustomer
  by_cases hreq : (optFalsy (f.map jsTrim) || optFalsy (l.map jsTrim) || optFalsy ph) = true
  · rw [if_pos hreq]
    exact Or.inl rfl
  · rw [if_neg hreq]
    by_cases hpv : (!(_phoneValidator (ph.getD [])).success) = true
    · rw [if_pos hpv]
      exact Or.inl rfl
    · rw [if_neg hpv]
      have hps : (_phoneValidator (ph.getD [])).success = true := by simpa using hpv
      have hval := phoneValidator_success_value hps
      cases hes : registerCustomerEmail em with
      | error m =>
        exact Or.inl rfl
      | ok ne =>
        rcases registerCustomerFinish_cases st ((f.map jsTrim).getD [])
            ((l.map jsTrim).getD [])
            ((_phoneValidator (ph.getD [])).value.getD []) ne now with
          hL | ⟨c, st2, heq, hgen, _, _, hcp, hce, hcr, hfp, hfe⟩
        · exact Or.inl hL
        · have hcpf : c.phone = (ph.getD []).filter isDig := by
            rw [hcp, hval]
            rfl
          obtain ⟨_, hdig, hlen⟩ := phoneValidator_value_spec (hcpf ▸ hval)
          refine Or.inr ⟨c, st2, heq, hgen, hdig, hlen, ?_, ?_, hcr⟩
          · rw [← hcp] at hfp
            exact hfp
          · rcases registerCustomerEmail_ok hes with hnil | ⟨ht, hnk⟩
            · exact Or.inl (hce ▸ hnil)
            · rcases hfe with hnil | hfind
              · exact Or.inl (hce ▸ hnil)
              · exact Or.inr ⟨hce ▸ ht, hce ▸ hnk, hce ▸ hfind⟩

theorem updateCustomerPhone_some (st : Store) (inputId : Str) (c : Customer) (v : Str) :
    updateCustomerPhone st inputId c (some v) =
      (if !(_phoneValidator v).success then
        .error ("Phone number must be 10 digits.").data
       else
        match findCustomerByPhone st.customers ((_phoneValidator v).value.getD []) with
        | some dup =>
          if dup.customer_id ≠ inputId then .error ("Phone number already exists.").data
          else .ok { c with phone := (_phoneValidator v).value.getD [] }
        | none => .ok { c with phone := (_phoneValidator v).value.getD [] }) := rfl

theorem updateCustomerEmailF_some (st : Store) (inputId : Str) (c : Customer) (v : Str) :
    updateCustomerEmailF st inputId c (some v) =
      (if !(_emailValidator v).success then
        .error ("Invalid email format.").data
       else
        match findCustomerByEmail st.customers ((_emailValidator v).value.getD []) with
        | some dup =>
          if dup.customer_id ≠ inputId then .error ("Email already exists.").data
          else .ok { c with email := (_emailValidator v).value.getD [] }
        | none => .ok { c with email := (_emailValidator v).value.getD [] }) := rfl

theorem updateCustomerPhone_ok {st : Store} {inputId : Str} {c c3 : Customer}
    {pp : Option Str} (h : updateCustomerPhone st inputId c pp = .ok c3) :
    (pp = none ∧ c3 = c) ∨
    (∃ v, pp = some v ∧ (_phoneValidator v).value = some c3.phone ∧
      c3 = { c with phone := c3.phone } ∧
      (∀ d, findCustomerByPhone st.customers c3.phone = some d →
        d.customer_id = inputId)) := by
  cases pp with
  | none =>
    refine Or.inl ⟨rfl, ?_⟩
    simpa [updateCustomerPhone] using h.symm
  | some v =>
    rw [updateCustomerPhone_some] at h
    by_cases hs : (!(_phoneValidator v).success) = true
    · rw [if_pos hs] at h
      exact absurd h (by simp)
    · rw [if_neg hs] at h
      have hps : (_phoneValidator v).success = true := by simpa using hs
      have hval := phoneValidator_success_value hps
      cases hf : findCustomerByPhone st.customers ((_phoneValidator v).value.getD []) with
      | none =>
        simp only [hf] at h
        have hc3 : ({ c with phone := (_phoneValidator v).value.getD [] } : Customer) = c3 := by
          simpa using h
        refine Or.inr ⟨v, rfl, ?_, ?_, ?_⟩
        · rw [← hc3, hval]
          rfl
        · rw [← hc3]
        · intro d hd
          rw [← hc3] at hd
          simp only at hd
          rw [hf] at hd
          exact absurd hd (by simp)
      | some dup =>
        simp only [hf] at h
        by_cases hdup : (dup.customer_id ≠ inputId)
        · rw [if_pos hdup] at h
          exact absurd h (by simp)
        · rw [if_neg hdup] at h
          have hdid : dup.customer_id = inputId := by
            by_contra hx
            exact hdup hx
          have hc3 : ({ c with phone := (_phoneValidator v).value.getD [] } : Customer) = c3 := by
            simpa using h
          refine Or.inr ⟨v, rfl, ?_, ?_, ?_⟩
          · rw [← hc3, hval]
            rfl
          · rw [← hc3]
          · intro d hd
            rw [← hc3] at hd
            simp only at hd
            rw [hf] at hd
            have : dup = d := by simpa using hd
            rw [← this]
            exact hdid

theorem updateCustomerEmailF_ok {st : Store} {inputId : Str} {c c3 : Customer}
    {pe : Option Str} (h : updateCustomerEmailF st inputId c pe = .ok c3) :
    (pe = none ∧ c3 = c) ∨
    (∃ v, pe = some v ∧ (_emailValidator v).value = some c3.email ∧
      c3 = { c with email := c3.email } ∧
      (∀ d, findCustomerByEmail st.customers c3.email = some d →
        d.customer_id = inputId)) := by
  cases pe with
  | none =>
    refine Or.inl ⟨rfl, ?_⟩
    simpa [updateCustomerEmailF] using h.symm
  | some v =>
    rw [updateCustomerEmailF_some] at h
    by_cases hs : (!(_emailValidator v).success) = true
    · rw [if_pos hs] at h
      exact absurd h (by simp)
    · rw [if_neg hs] at h
      have hps : (_emailValidator v).success = true := by simpa using hs
      have hval := emailValidator_success_value hps
      cases hf : findCustomerByEmail st.customers ((_emailValidator v).value.getD []) with
      | none =>
        simp only [hf] at h
        have hc3 : ({ c with email := (_emailValidator v).value.getD [] } : Customer) = c3 := by
          simpa using h
        refine Or.inr ⟨v, rfl, ?_, ?_, ?_⟩
        · rw [← hc3, hval]
          rfl
        · rw [← hc3]
        · intro d hd
          rw [← hc3] at hd
          simp only at hd
          rw [hf] at hd
          exact absurd hd (by simp)
      | some dup =>
        simp only [hf] at h
        by_cases hdup : (dup.customer_id ≠ inputId)
        · rw [if_pos hdup] at h
          exact absurd h (by simp)
        · rw [if_neg hdup] at h
          have hdid : dup.customer_id = inputId := by
            by_contra hx
            exact hdup hx
          have hc3 : ({ c with email := (_emailValidator v).value.getD [] } : Customer) = c3 := by
            simpa using h
          refine Or.inr ⟨v, rfl, ?_, ?_, ?_⟩
          · rw [← hc3, hval]
            rfl
          · rw [← hc3]
          · intro d hd
            rw [← hc3] at hd
            simp only at hd
            rw [hf] at hd
            have : dup = d := by simpa using hd
            rw [← this]
            exact hdid

theorem updateNames_fields (c : Customer) (pf pl : Option Str) :
    (updateCustomerLast (updateCustomerFirst c pf) pl).customer_id = c.customer_id ∧
    (updateCustomerLast (updateCustomerFirst c pf) pl).registered_at = c.registered_at ∧
    (updateCustomerLast (updateCustomerFirst c pf) pl).phone = c.phone ∧
    (updateCustomerLast (updateCustomerFirst c pf) pl).email = c.email ∧
    (updateCustomerLast (updateCustomerFirst c pf) pl).first_name =
      (match pf with | none => c.first_name | some v => jsTrim v) ∧
    (updateCustomerLast (updateCustomerFirst c pf) pl).last_name =
      (match pl with | none => c.last_name | some v => jsTrim v) := by
  cases pf <;> cases pl <;> simp [updateCustomerFirst, updateCustomerLast]

theorem customerField_id (c : Customer) :
    customerField ("customer_id").data c = c.customer_id := by
  simp [customerField]


/-- Branch analysis of the email stage of `updateCustomer`. -/
theorem updateCustomerFinish2_cases (st : Store) (p : UpdatePayload)
    (rowIndex : Nat) (c3 : Customer) :
    ((updateCustomerFinish2 st p rowIndex c3).2 = st ∧
      ∃ m, (updateCustomerFinish2 st p rowIndex c3).1 = .error m) ∨
    (∃ c', (updateCustomerFinish2 st p rowIndex c3).1 = .ok c' ∧
      (updateCustomerFinish2 st p rowIndex c3).2 =
        { st with customers := st.customers.set (rowIndex - 2) c' } ∧
      c'.customer_id = c3.customer_id ∧
      c'.registered_at = c3.registered_at ∧
      c'.first_name = c3.first_name ∧
      c'.last_name = c3.last_name ∧
      c'.phone = c3.phone ∧
      (p.email = none → c'.email = c3.email) ∧
      (∀ v, p.email = some v → (_emailValidator v).value = some c'.email ∧
        (∀ d, findCustomerByEmail st.customers c'.email = some d →
          d.customer_id = p.customer_id))) := by
  unfold updateCustomerFinish2
  cases hem : updateCustomerEmailF st p.customer_id c3 p.email with
  | error m => exact Or.inl ⟨rfl, _, rfl⟩
  | ok c' =>
    rcases updateCustomerEmailF_ok hem with ⟨hnone, hc'⟩ | ⟨v, hv, hval, hc', hdup⟩
    · subst hc'
      refine Or.inr ⟨c', rfl, rfl, rfl, rfl, rfl, rfl, rfl, fun _ => rfl, ?_⟩
      intro v hv
      rw [hnone] at hv
      exact absurd hv (by simp)
    · refine Or.inr ⟨c', rfl, rfl, ?_, ?_, ?_, ?_, ?_, ?_, ?_⟩
      · rw [hc']
      · rw [hc']
      · rw [hc']
      · rw [hc']
      · rw [hc']
      · intro h0
        rw [h0] at hv
        exact absurd hv (by simp)
      · intro w hw
        rw [hv] at hw
        have hwv : v = w := by simpa using hw
        subst hwv
        exact ⟨hval, hdup⟩

/-- Branch analysis of the post-lookup part of `updateCustomer`. -/
theorem updateCustomerFinish_cases (st : Store) (p : UpdatePayload)
    (customer : Customer) (rowIndex : Nat) :
    ((updateCustomerFinish st p customer rowIndex).2 = st ∧
      ∃ m, (updateCustomerFinish st p customer rowIndex).1 = .error m) ∨
    (∃ c', (updateCustomerFinish st p customer rowIndex).1 = .ok c' ∧
      (updateCustomerFinish st p customer rowIndex).2 =
        { st with customers := st.customers.set (rowIndex - 2) c' } ∧
      c'.customer_id = customer.customer_id ∧
      c'.registered_at = customer.registered_at ∧
      c'.first_name = (match p.first_name with
        | none => customer.first_name | some v => jsTrim v) ∧
      c'.last_name = (match p.last_name with
        | none => customer.last_name | some v => jsTrim v) ∧
      (p.phone = none → c'.phone = customer.phone) ∧
      (∀ v, p.phone = some v → (_phoneValidator v).value = some c'.phone ∧
        (∀ d, findCustomerByPhone st.customers c'.phone = some d →
          d.customer_id = p.customer_id)) ∧
      (p.email = none → c'.email = customer.email) ∧
      (∀ v, p.email = some v → (_emailValidator v).value = some c'.email ∧
        (∀ d, findCustomerByEmail st.customers c'.email = some d →
          d.customer_id = p.customer_id))) := by
  unfold updateCustomerFinish
  cases hph : updateCustomerPhone st p.customer_id
      (updateCustomerLast (updateCustomerFirst customer p.first_name) p.last_name)
      p.phone with
  | error m => exact Or.inl ⟨rfl, _, rfl⟩
  | ok c3 =>
    obtain ⟨hid2, hreg2, hph2, hem2, hfn2, hln2⟩ :=
      updateNames_fields customer p.first_name p.last_name
    have hph3 : c3.customer_id = customer.customer_id ∧
        c3.registered_at = customer.registered_at ∧
        c3.first_name = (match p.first_name with
          | none => customer.first_name | some v => jsTrim v) ∧
        c3.last_name = (match p.last_name with
          | none => customer.last_name | some v => jsTrim v) ∧
        c3.email = customer.email ∧
        (p.phone = none → c3.phone = customer.phone) ∧
        (∀ v, p.phone = some v → (_phoneValidator v).value = some c3.phone ∧
          (∀ d, findCustomerByPhone st.customers c3.phone = some d →
            d.customer_id = p.customer_id)) := by
      rcases updateCustomerPhone_ok hph with ⟨hnone, hc3⟩ | ⟨v, hv, hval, hc3, hdup⟩
      · subst hc3
        refine ⟨hid2, hreg2, hfn2, hln2, hem2, fun _ => hph2, ?_⟩
        intro v hv
        rw [hnone] at hv
        exact absurd hv (by simp)
      · refine ⟨by rw [hc3]; exact hid2, by rw [hc3]; exact hreg2,
          by rw [hc3]; exact hfn2, by rw [hc3]; exact hln2,
          by rw [hc3]; exact hem2, ?_, ?_⟩
        · intro h0
          rw [h0] at hv
          exact absurd hv (by simp)
        · intro w hw
          rw [hv] at hw
          have hwv : v = w := by simpa using hw
          subst hwv
          exact ⟨hval, hdup⟩
    obtain ⟨h3id, h3reg, h3fn, h3ln, h3em, h3phn, h3phs⟩ := hph3
    rcases updateCustomerFinish2_cases st p rowIndex c3 with
      ⟨hst, m, herr⟩ | ⟨c', hok, hst, h4id, h4reg, h4fn, h4ln, h4ph, h4emn, h4ems⟩
    · exact Or.inl ⟨hst, m, herr⟩
    · refine Or.inr ⟨c', hok, hst, ?_, ?_, ?_, ?_, ?_, ?_, ?_, h4ems⟩
      · rw [h4id, h3id]
      · rw [h4reg, h3reg]
      · rw [h4fn, h3fn]
      · rw [h4ln, h3ln]
      · intro h0
        rw [h4ph, h3phn h0]
      · intro v hv
        obtain ⟨ha, hb⟩ := h3phs v hv
        rw [h4ph]
        exact ⟨ha, hb⟩
      · intro h0
        rw [h4emn h0, h3em]

/-- Branch analysis of `updateCustomer`: either it fails and leaves the
store unchanged, or it succeeds: the found row (first id match) is
rewritten in place with exactly the provided fields merged, names
merely trimmed, phone/email revalidated with any first duplicate found
belonging to the target's own `customer_id`. -/
theorem updateCustomer_cases (st : Store) (p : UpdatePayload) :
    ((updateCustomer st p).2 = st ∧ ∃ m, (updateCustomer st p).1 = .error m) ∨
    (∃ idx c0 c', (updateCustomer st p).1 = .ok c' ∧
      (updateCustomer st p).2 = { st with customers := st.customers.set idx c' } ∧
      st.customers[idx]? = some c0 ∧
      normKey c0.customer_id = normKey p.customer_id ∧
      _customerIdIsValid p.customer_id = true ∧
      c'.customer_id = c0.customer_id ∧
      c'.registered_at = c0.registered_at ∧
      c'.first_name = (match p.first_name with | none => c0.first_name | some v => jsTrim v) ∧
      c'.last_name = (match p.last_name with | none => c0.last_name | some v => jsTrim v) ∧
      (p.phone = none → c'.phone = c0.phone) ∧
      (∀ v, p.phone = some v → (_phoneValidator v).value = some c'.phone ∧
        (∀ d, findCustomerByPhone st.customers c'.phone = some d →
          d.customer_id = p.customer_id)) ∧
      (p.email = none → c'.email = c0.email) ∧
      (∀ v, p.email = some v → (_emailValidator v).value = some c'.email ∧
        (∀ d, findCustomerByEmail st.customers c'.email = some d →
          d.customer_id = p.customer_id))) := by
  unfold updateCustomer
  by_cases h1 : p.customer_id.isEmpty = true
  · rw [if_pos h1]
    exact Or.inl ⟨rfl, _, rfl⟩
  · rw [if_neg h1]
    by_cases h2 : (!_customerIdIsValid p.customer_id) = true
    · rw [if_pos h2]
      exact Or.inl ⟨rfl, _, rfl⟩
    · rw [if_neg h2]
      have hvalid : _customerIdIsValid p.customer_id = true := by simpa using h2
      cases hfind : _findCustomerAndIndexBy ("customer_id").data p.customer_id
          st.customers with
      | none => exact Or.inl ⟨rfl, _, rfl⟩
      | some pr =>
        obtain ⟨customer, rowIndex⟩ := pr
        have hspec : ∃ idx, rowIndex = idx + 2 ∧ st.customers[idx]? = some customer ∧
            normKey customer.customer_id = normKey p.customer_id := by
          unfold _findCustomerAndIndexBy at hfind
          rw [if_pos (by decide)] at hfind
          obtain ⟨idx, hj, hget, hnkey⟩ := findAux_some_spec hfind
          rw [customerField_id] at hnkey
          exact ⟨idx, by omega, hget, hnkey⟩
        obtain ⟨idx, hrow, hget, hnkey⟩ := hspec
        rcases updateCustomerFinish_cases st p customer rowIndex with
          ⟨hst, m, herr⟩ | ⟨c', hok, hst, hcid, hcreg, hcfn, hcln, hphn, hphs, hemn, hems⟩
        · exact Or.inl ⟨hst, m, herr⟩
        · refine Or.inr ⟨idx, customer, c', hok, ?_, hget, hnkey, hvalid,
            hcid, hcreg, hcfn, hcln, hphn, hphs, hemn, hems⟩
          refine hst.trans ?_
          rw [hrow]
          simp

-- ======================= well-formedness and the uniqueness invariant =======================

/-- The canonical customer id the counter allocator emits for counter
value `m`. -/
def fmtCid (m : Nat) : Str := 'C' :: padStart5 (natToDigits m)

/-- Parse a customer id into its numeric suffix. -/
def idNumOf : Str → Option Nat
  | 'C' :: ds => if !ds.isEmpty && ds.all isDig then some (digitsToNat ds) else none
  | _ => none

/-- A stored id is well formed w.r.t. counter `k`: canonical
`fmtCid m` for some `1 ≤ m ≤ k`. -/
def wfId (counter : Nat) (id : Str) : Bool :=
  match idNumOf id with
  | some m => decide (1 ≤ m) && decide (m ≤ counter) && decide (id = fmtCid m)
  | none => false

/-- A stored phone is normalised: exactly 10 digits. -/
def wfPhone (s : Str) : Bool := s.all isDig && decide (s.length = 10)

/-- A stored email is normalised: empty, or regex-passing and fixed by
`trim`/`toLowerCase`. -/
def wfEmail (s : Str) : Bool :=
  s.isEmpty || (emailRegexTest s && decide (normKey s = s))

/-- Pairwise distinctness the well-formed store maintains: distinct
phones, distinct non-empty emails, distinct ids. -/
def wfPairB (a b : Customer) : Bool :=
  decide (a.phone ≠ b.phone) &&
  (a.email.isEmpty || b.email.isEmpty || decide (a.email ≠ b.email)) &&
  decide (a.customer_id ≠ b.customer_id)

def pairwiseB (r : α → α → Bool) : List α → Bool
  | [] => true
  | a :: l => l.all (r a) && pairwiseB r l

/-- The customer-id counter value a store carries, read through the
same scan the allocator performs; `none` when the settings sheet, the
key, or a usable non-negative numeric value is missing. -/
def counterOf (st : Store) : Option Nat :=
  match st.settings with
  | none => none
  | some rows =>
    match allocFromSettings ("last_customer_id_number").data rows with
    | some (some n, _) => if 1 ≤ n then some (n - 1).toNat else none
    | _ => none

/-- Well-formed store: a usable counter, normalised stored fields, ids
canonical and bounded by the counter, and pairwise distinctness. -/
def WFc (st : Store) : Bool :=
  match counterOf st with
  | none => false
  | some k =>
    st.customers.all (fun c => wfPhone c.phone && wfEmail c.email &&
      wfId k c.customer_id) &&
    pairwiseB wfPairB st.customers

/-- The spec's §3 customer invariant, literally: for distinct stored
customers the phones differ, and non-empty emails differ
case-insensitively. -/
def custDistinctB (a b : Customer) : Bool :=
  decide (a.phone ≠ b.phone) &&
  (a.email.isEmpty || b.email.isEmpty ||
    decide (jsToLower a.email ≠ jsToLower b.email))

def bareInvariantB (rows : List Customer) : Bool := pairwiseB custDistinctB rows

/-- A customer-registry operation (the two mutating API actions). -/
inductive CustOp where
  | reg (first_name last_name phone email : Option Str) (nowIso : Str)
  | upd (p : UpdatePayload)

def applyOp (st : Store) : CustOp → Store
  | .reg f l ph e now => (registerCustomer st f l ph e now).2
  | .upd p => (updateCustomer st p).2

def applyOps (st : Store) (ops : List CustOp) : Store := ops.foldl applyOp st

-- ======================= helper lemmas for WF =======================

theorem natToDigits_ne_nil (n : Nat) : natToDigits n ≠ [] := by
  unfold natToDigits
  split_ifs <;> simp

theorem padStart5_ne_nil {s : Str} (h : s ≠ []) : padStart5 s ≠ [] := by
  unfold padStart5
  intro hx
  rcases List.append_eq_nil.mp hx with ⟨_, h2⟩
  exact h h2

theorem idNumOf_fmtCid (m : Nat) : idNumOf (fmtCid m) = some m := by
  have h1 : padStart5 (natToDigits m) ≠ [] := padStart5_ne_nil (natToDigits_ne_nil m)
  have h2 : (padStart5 (natToDigits m)).all isDig = true :=
    padStart5_all_isDig (natToDigits_all_isDig m)
  have h3 : (padStart5 (natToDigits m)).isEmpty = false := by
    cases hx : padStart5 (natToDigits m)
    · exact absurd hx h1
    · rfl
  show (if (!(padStart5 (natToDigits m)).isEmpty &&
      (padStart5 (natToDigits m)).all isDig) = true then
    some (digitsToNat (padStart5 (natToDigits m))) else none) = some m
  rw [h3, h2]
  simp [digitsToNat_padStart5, digitsToNat_natToDigits]

theorem fmtCid_inj {m m' : Nat} (h : fmtCid m = fmtCid m') : m = m' := by
  have h1 := idNumOf_fmtCid m
  rw [h, idNumOf_fmtCid] at h1
  simpa using h1.symm

theorem wfId_mono {k k' : Nat} {id : Str} (hk : k ≤ k') (h : wfId k id = true) :
    wfId k' id = true := by
  unfold wfId at h ⊢
  cases hx : idNumOf id with
  | none => rw [hx] at h; exact absurd h (by simp)
  | some m =>
    rw [hx] at h
    have h' : (decide (1 ≤ m) && decide (m ≤ k) && decide (id = fmtCid m)) = true := h
    show (decide (1 ≤ m) && decide (m ≤ k') && decide (id = fmtCid m)) = true
    simp only [Bool.and_eq_true, decide_eq_true_eq] at h' ⊢
    exact ⟨⟨h'.1.1, by omega⟩, h'.2⟩

theorem wfId_fmtCid {k m : Nat} (h1 : 1 ≤ m) (h2 : m ≤ k) :
    wfId k (fmtCid m) = true := by
  unfold wfId
  rw [idNumOf_fmtCid]
  show (decide (1 ≤ m) && decide (m ≤ k) && decide (fmtCid m = fmtCid m)) = true
  simp [h1, h2]

theorem wfId_num {k : Nat} {id : Str} (h : wfId k id = true) :
    ∃ m, 1 ≤ m ∧ m ≤ k ∧ id = fmtCid m := by
  unfold wfId at h
  cases hx : idNumOf id with
  | none => rw [hx] at h; exact absurd h (by simp)
  | some m =>
    rw [hx] at h
    have h' : (decide (1 ≤ m) && decide (m ≤ k) && decide (id = fmtCid m)) = true := h
    simp only [Bool.and_eq_true, decide_eq_true_eq] at h'
    exact ⟨m, h'.1.1, h'.1.2, h'.2⟩

theorem allocFromSettings_step {key : Str} {rows : List (Str × Cell)} {n : Int}
    {rows2 : List (Str × Cell)}
    (h : allocFromSettings key rows = some (some n, rows2)) :
    ∃ rows3, allocFromSettings key rows2 = some (some (n + 1), rows3) := by
  induction rows generalizing rows2 with
  | nil => simp [allocFromSettings] at h
  | cons kv rest ih =>
    obtain ⟨k0, v0⟩ := kv
    unfold allocFromSettings at h
    by_cases hk : k0 = key
    · rw [if_pos hk] at h
      simp only [Option.some.injEq, Prod.mk.injEq] at h
      obtain ⟨hn, hr⟩ := h
      rw [hn] at hr
      refine ⟨(k0, Cell.num (n + 1)) :: rest, ?_⟩
      rw [← hr]
      show allocFromSettings key ((k0, Cell.num n) :: rest) =
        some (some (n + 1), (k0, Cell.num (n + 1)) :: rest)
      unfold allocFromSettings
      rw [if_pos hk]
      simp [cellParseInt]
    · rw [if_neg hk] at h
      cases hx : allocFromSettings key rest with
      | none => rw [hx] at h; exact absurd h (by simp)
      | some pr =>
        rw [hx] at h
        obtain ⟨r1, rest2⟩ := pr
        simp only [Option.map_some', Option.some.injEq, Prod.mk.injEq] at h
        obtain ⟨hn, hr⟩ := h
        subst hn
        obtain ⟨rows3, hv⟩ := ih hx
        refine ⟨(k0, v0) :: rows3, ?_⟩
        rw [← hr]
        unfold allocFromSettings
        rw [if_neg hk, hv]
        rfl

/-- On a store with a usable counter `k`, the allocator succeeds,
returns the canonical id `fmtCid (k+1)`, advances the counter to
`k+1`, and touches only the settings sheet. -/
theorem counterOf_generate {st : Store} {k : Nat} (h : counterOf st = some k) :
    ∃ st2, _generateNextCustomerId st = .ok (fmtCid (k + 1), st2) ∧
      counterOf st2 = some (k + 1) ∧ st2.customers = st.customers ∧
      st2.sales = st.sales ∧ st2.summary = st.summary := by
  unfold counterOf at h
  cases hs : st.settings with
  | none => rw [hs] at h; exact absurd h (by simp)
  | some rows =>
    rw [hs] at h
    have h2 : (match allocFromSettings (("last_customer_id_number").data) rows with
      | some (some n, _) => if 1 ≤ n then some (n - 1).toNat else none
      | _ => none) = some k := h
    cases ha : allocFromSettings (("last_customer_id_number").data) rows with
    | none =>
      rw [ha] at h2
      exact absurd h2 (by simp)
    | some pr =>
      rw [ha] at h2
      obtain ⟨onum, rows2⟩ := pr
      cases onum with
      | none =>
        have h3 : (none : Option Nat) = some k := h2
        exact absurd h3 (by simp)
      | some n =>
        have h3 : (if 1 ≤ n then some (n - 1).toNat else none) = some k := h2
        by_cases hn : 1 ≤ n
        · rw [if_pos hn] at h3
          have hk : (n - 1).toNat = k := by simpa using h3
          refine ⟨{ st with settings := some rows2 }, ?_, ?_, rfl, rfl, rfl⟩
          · unfold _generateNextCustomerId
            rw [hs]
            show (match allocFromSettings (("last_customer_id_number").data) rows with
              | none => Except.error ("Failed to generate a new customer ID.").data
              | some (nextIdNum, rows3) =>
                Except.ok ('C' :: padStart5 (jsNumToString nextIdNum),
                  { st with settings := some rows3 })) =
              Except.ok (fmtCid (k + 1), { st with settings := some rows2 })
            rw [ha]
            have hid : 'C' :: padStart5 (jsNumToString (some n)) = fmtCid (k + 1) := by
              show 'C' :: padStart5 (if n < 0 then '-' :: natToDigits n.natAbs
                else natToDigits n.toNat) = fmtCid (k + 1)
              rw [if_neg (by omega : ¬n < 0)]
              unfold fmtCid
              congr 3
              omega
            show Except.ok ('C' :: padStart5 (jsNumToString (some n)),
              { st with settings := some rows2 }) =
              Except.ok (fmtCid (k + 1), { st with settings := some rows2 })
            rw [hid]
          · obtain ⟨rows3, hstep⟩ := allocFromSettings_step ha
            unfold counterOf
            show (match allocFromSettings (("last_customer_id_number").data) rows2 with
              | some (some n, _) => if 1 ≤ n then some (n - 1).toNat else none
              | _ => none) = some (k + 1)
            rw [hstep]
            show (if 1 ≤ n + 1 then some ((n + 1) - 1).toNat else none) = some (k + 1)
            rw [if_pos (by omega)]
            congr 1
            omega
        · rw [if_neg hn] at h3
          exact absurd h3 (by simp)

-- pairwise machinery

theorem pairwiseB_get {r : α → α → Bool} :
    ∀ {l : List α}, pairwiseB r l = true →
      ∀ (i j : Nat) (a b : α), i < j → l[i]? = some a → l[j]? = some b → r a b = true := by
  intro l
  induction l with
  | nil => intro _ i j a b _ ha _; simp at ha
  | cons x xs ih =>
    intro h i j a b hij ha hb
    unfold pairwiseB at h
    rw [Bool.and_eq_true] at h
    cases i with
    | zero =>
      have hax : x = a := by simpa using ha
      subst hax
      cases j with
      | zero => omega
      | succ j' =>
        have hb' : xs[j']? = some b := by simpa using hb
        have := List.all_eq_true.mp h.1 b (List.mem_iff_getElem?.mpr ⟨j', hb'⟩)
        simpa using this
    | succ i' =>
      cases j with
      | zero => omega
      | succ j' =>
        have ha' : xs[i']? = some a := by simpa using ha
        have hb' : xs[j']? = some b := by simpa using hb
        exact ih h.2 i' j' a b (by omega) ha' hb'

theorem pairwiseB_of_get {r : α → α → Bool} :
    ∀ {l : List α},
      (∀ (i j : Nat) (a b : α), i < j → l[i]? = some a → l[j]? = some b → r a b = true) →
      pairwiseB r l = true := by
  intro l
  induction l with
  | nil => intro _; rfl
  | cons x xs ih =>
    intro h
    unfold pairwiseB
    rw [Bool.and_eq_true]
    constructor
    · rw [List.all_eq_true]
      intro b hbm
      obtain ⟨j, hj⟩ := List.getElem?_of_mem hbm
      exact h 0 (j + 1) x b (by omega) (by simp) (by simpa using hj)
    · apply ih
      intro i j a b hij ha hb
      exact h (i + 1) (j + 1) a b (by omega) (by simpa using ha) (by simpa using hb)

theorem pairwiseB_append_singleton {r : α → α → Bool} {l : List α} {a : α}
    (hl : pairwiseB r l = true) (ha : ∀ b ∈ l, r b a = true) :
    pairwiseB r (l ++ [a]) = true := by
  induction l with
  | nil => simpa [pairwiseB]
  | cons x xs ih =>
    unfold pairwiseB at hl ⊢
    rw [Bool.and_eq_true] at hl
    rw [List.cons_append, Bool.and_eq_true]
    constructor
    · rw [List.all_eq_true]
      intro b hbm
      rcases List.mem_append.mp hbm with hx | hx
      · exact List.all_eq_true.mp hl.1 b hx
      · have hba : b = a := by simpa using hx
        subst hba
        exact ha x (by simp)
    · exact ih hl.2 (fun b hb => ha b (by simp [hb]))

theorem all_set {p : α → Bool} {l : List α} {i : Nat} {a : α}
    (hl : l.all p = true) (hp : p a = true) : (l.set i a).all p = true := by
  rw [List.all_eq_true] at hl ⊢
  intro b hb
  rcases List.mem_or_eq_of_mem_set hb with hx | hx
  · exact hl b hx
  · subst hx
    exact hp

-- find lemmas specialised to phone/email columns

theorem customerField_phone (c : Customer) :
    customerField ("phone").data c = c.phone := rfl

theorem customerField_email (c : Customer) :
    customerField ("email").data c = c.email := rfl

theorem findByPhone_none_all {rows : List Customer} {np : Str}
    (hd : np.all isDig = true) (hl : np.length = 10)
    (h : findCustomerByPhone rows np = none) :
    ∀ b ∈ rows, normKey b.phone ≠ np := by
  unfold findCustomerByPhone at h
  rw [phoneValidator_idem hd hl] at h
  have hne : np.isEmpty = false := by
    cases np
    · simp at hl
    · rfl
  have h2 : (if np.isEmpty = true then none
      else _findCustomerBy ("phone").data np rows) = none := h
  rw [hne] at h2
  simp only [Bool.false_eq_true, if_false] at h2
  have h3 := (findCustomerBy_eq_none_iff (by decide)).mp h2
  intro b hb
  have := h3 b hb
  rw [customerField_phone] at this
  rw [normKey_of_all_isDig hd] at this
  exact this

theorem findByEmail_none_all {rows : List Customer} {ne : Str}
    (ht : emailRegexTest ne = true) (hn : normKey ne = ne)
    (h : findCustomerByEmail rows ne = none) :
    ∀ b ∈ rows, normKey b.email ≠ ne := by
  unfold findCustomerByEmail at h
  rw [emailValidator_idem ht hn] at h
  have hne : ne.isEmpty = false := by
    cases hx : ne
    · exact absurd (hx ▸ ht) (by simp [emailRegexTest])
    · rfl
  have h2 : (if ne.isEmpty = true then none
      else _findCustomerBy ("email").data ne rows) = none := h
  rw [hne] at h2
  simp only [Bool.false_eq_true, if_false] at h2
  have h3 := (findCustomerBy_eq_none_iff (by decide)).mp h2
  intro b hb
  have := h3 b hb
  rw [customerField_email] at this
  rw [hn] at this
  exact this

theorem findByPhone_some_spec {rows : List Customer} {np : Str} {d : Customer}
    (hd : np.all isDig = true) (hl : np.length = 10)
    (h : findCustomerByPhone rows np = some d) :
    d ∈ rows ∧ normKey d.phone = np := by
  unfold findCustomerByPhone at h
  rw [phoneValidator_idem hd hl] at h
  have hne : np.isEmpty = false := by
    cases np
    · simp at hl
    · rfl
  have h2 : (if np.isEmpty = true then none
      else _findCustomerBy ("phone").data np rows) = some d := h
  rw [hne] at h2
  simp only [Bool.false_eq_true, if_false] at h2
  obtain ⟨hm, hk⟩ := findCustomerBy_some_spec h2
  rw [customerField_phone] at hk
  rw [normKey_of_all_isDig hd] at hk
  exact ⟨hm, hk⟩

theorem findByEmail_some_spec {rows : List Customer} {ne : Str} {d : Customer}
    (ht : emailRegexTest ne = true) (hn : normKey ne = ne)
    (h : findCustomerByEmail rows ne = some d) :
    d ∈ rows ∧ normKey d.email = ne := by
  unfold findCustomerByEmail at h
  rw [emailValidator_idem ht hn] at h
  have hne : ne.isEmpty = false := by
    cases hx : ne
    · exact absurd (hx ▸ ht) (by simp [emailRegexTest])
    · rfl
  have h2 : (if ne.isEmpty = true then none
      else _findCustomerBy ("email").data ne rows) = some d := h
  rw [hne] at h2
  simp only [Bool.false_eq_true, if_false] at h2
  obtain ⟨hm, hk⟩ := findCustomerBy_some_spec h2
  rw [customerField_email] at hk
  rw [hn] at hk
  exact ⟨hm, hk⟩

theorem findByPhone_exists {rows : List Customer} {np : Str} {b : Customer}
    (hd : np.all isDig = true) (hl : np.length = 10)
    (hb : b ∈ rows) (hm : normKey b.phone = np) :
    ∃ d, findCustomerByPhone rows np = some d := by
  cases h : findCustomerByPhone rows np with
  | none => exact absurd hm (findByPhone_none_all hd hl h b hb)
  | some d => exact ⟨d, rfl⟩

theorem findByEmail_exists {rows : List Customer} {ne : Str} {b : Customer}
    (ht : emailRegexTest ne = true) (hn : normKey ne = ne)
    (hb : b ∈ rows) (hm : normKey b.email = ne) :
    ∃ d, findCustomerByEmail rows ne = some d := by
  cases h : findCustomerByEmail rows ne with
  | none => exact absurd hm (findByEmail_none_all ht hn h b hb)
  | some d => exact ⟨d, rfl⟩

-- normKey on canonical ids

theorem jsTrim_of_all_not_ws {s : Str}
    (h : s.all (fun c => !c.isWhitespace) = true) : jsTrim s = s := by
  have key : ∀ t : Str, t.all (fun c => !c.isWhitespace) = true →
      t.dropWhile Char.isWhitespace = t := by
    intro t ht
    cases t with
    | nil => rfl
    | cons c r =>
      have hc : c.isWhitespace = false := by
        simp only [List.all_cons, Bool.and_eq_true] at ht
        simpa using ht.1
      simp [List.dropWhile_cons, hc]
  unfold jsTrim trimRight trimLeft
  rw [key s h, key s.reverse (by simpa using h), List.reverse_reverse]

theorem normKey_fmtCid (m : Nat) :
    normKey (fmtCid m) = 'c' :: padStart5 (natToDigits m) := by
  unfold normKey
  have hds := padStart5_all_isDig (natToDigits_all_isDig m)
  have htrim : jsTrim (fmtCid m) = fmtCid m := by
    apply jsTrim_of_all_not_ws
    unfold fmtCid
    rw [List.all_cons, Bool.and_eq_true]
    refine ⟨by decide, ?_⟩
    rw [List.all_eq_true] at hds ⊢
    intro c hc
    simpa [not_whitespace_of_isDig (hds c hc)] using trivial
  rw [htrim]
  unfold fmtCid jsToLower
  rw [List.map_cons]
  congr 1
  exact jsToLower_of_all_isDig hds

theorem fmtCid_normKey_inj {m m' : Nat}
    (h : normKey (fmtCid m) = normKey (fmtCid m')) : m = m' := by
  rw [normKey_fmtCid, normKey_fmtCid] at h
  have hpad : padStart5 (natToDigits m) = padStart5 (natToDigits m') := by
    simpa using h
  have := congrArg digitsToNat hpad
  rwa [digitsToNat_padStart5, digitsToNat_padStart5, digitsToNat_natToDigits,
    digitsToNat_natToDigits] at this

theorem wf_id_match {k : Nat} {a b : Customer}
    (ha : wfId k a.customer_id = true) (hb : wfId k b.customer_id = true)
    (h : normKey a.customer_id = normKey b.customer_id) :
    a.customer_id = b.customer_id := by
  obtain ⟨m, _, _, hma⟩ := wfId_num ha
  obtain ⟨m', _, _, hmb⟩ := wfId_num hb
  rw [hma, hmb] at h ⊢
  rw [fmtCid_normKey_inj h]

-- WF unpacking

theorem WFc_parts {st : Store} {k : Nat} (hcnt : counterOf st = some k)
    (hwf : WFc st = true) :
    st.customers.all (fun c => wfPhone c.phone && wfEmail c.email &&
      wfId k c.customer_id) = true ∧
    pairwiseB wfPairB st.customers = true := by
  unfold WFc at hwf
  rw [hcnt] at hwf
  have h' : (st.customers.all (fun c => wfPhone c.phone && wfEmail c.email &&
      wfId k c.customer_id) && pairwiseB wfPairB st.customers) = true := hwf
  rw [Bool.and_eq_true] at h'
  exact h'

theorem wf_member {k : Nat} {rows : List Customer} {b : Customer}
    (hall : rows.all (fun c => wfPhone c.phone && wfEmail c.email &&
      wfId k c.customer_id) = true) (hb : b ∈ rows) :
    (b.phone.all isDig = true ∧ b.phone.length = 10) ∧
    (b.email = [] ∨ (emailRegexTest b.email = true ∧ normKey b.email = b.email)) ∧
    wfId k b.customer_id = true := by
  have := List.all_eq_true.mp hall b hb
  rw [Bool.and_eq_true, Bool.and_eq_true] at this
  obtain ⟨⟨hp, he⟩, hi⟩ := this
  refine ⟨?_, ?_, hi⟩
  · unfold wfPhone at hp
    rw [Bool.and_eq_true] at hp
    exact ⟨hp.1, by simpa using hp.2⟩
  · unfold wfEmail at he
    rw [Bool.or_eq_true] at he
    rcases he with hx | hx
    · left
      simpa using hx
    · right
      rw [Bool.and_eq_true] at hx
      exact ⟨hx.1, by simpa using hx.2⟩

theorem wfPairB_spec {a b : Customer} (h : wfPairB a b = true) :
    a.phone ≠ b.phone ∧
    (a.email ≠ [] → b.email ≠ [] → a.email ≠ b.email) ∧
    a.customer_id ≠ b.customer_id := by
  unfold wfPairB at h
  rw [Bool.and_eq_true, Bool.and_eq_true] at h
  obtain ⟨⟨hp, he⟩, hi⟩ := h
  refine ⟨by simpa using hp, ?_, by simpa using hi⟩
  intro ha hb
  rw [Bool.or_eq_true] at he
  rcases he with hx | hx
  · rw [Bool.or_eq_true] at hx
    rcases hx with hy | hy
    · exact absurd (by simpa using hy) ha
    · exact absurd (by simpa using hy) hb
  · exact by simpa using hx

theorem pairwiseB_ne_positions {r : α → α → Bool} {l : List α}
    {i j : Nat} {a b : α} (h : pairwiseB r l = true) (hij : i ≠ j)
    (ha : l[i]? = some a) (hb : l[j]? = some b) :
    r a b = true ∨ r b a = true := by
  rcases Nat.lt_or_ge i j with hx | hx
  · exact Or.inl (pairwiseB_get h i j a b hx ha hb)
  · have : j < i := by omega
    exact Or.inr (pairwiseB_get h j i b a this hb ha)

/-- On a well-formed store, when `updateCustomer`'s phone arm accepted a
new normalised phone for the customer at `idx` (every duplicate the
search finds carries the input id), no OTHER stored customer has that
phone. -/
theorem update_unique_phone {st : Store} {k : Nat} {idx : Nat} {c0 : Customer}
    {pid np : Str}
    (hcnt : counterOf st = some k) (hwf : WFc st = true)
    (hget : st.customers[idx]? = some c0)
    (hid : normKey c0.customer_id = normKey pid)
    (hd : np.all isDig = true) (hl : np.length = 10)
    (hdup : ∀ d, findCustomerByPhone st.customers np = some d →
      d.customer_id = pid) :
    ∀ (j : Nat) (b : Customer), j ≠ idx → st.customers[j]? = some b →
      b.phone ≠ np := by
  obtain ⟨hall, hpw⟩ := WFc_parts hcnt hwf
  intro j b hj hb hcontra
  have hbmem : b ∈ st.customers := List.mem_iff_getElem?.mpr ⟨j, hb⟩
  obtain ⟨⟨hbd, hbl⟩, _, hbid⟩ := wf_member hall hbmem
  have hbnk : normKey b.phone = np := by
    rw [normKey_of_all_isDig hbd, hcontra]
  obtain ⟨d, hdfind⟩ := findByPhone_exists hd hl hbmem hbnk
  obtain ⟨hdmem, hdnk⟩ := findByPhone_some_spec hd hl hdfind
  have hdpid := hdup d hdfind
  obtain ⟨i, hi⟩ := List.getElem?_of_mem hdmem
  obtain ⟨_, _, hdid⟩ := wf_member hall hdmem
  obtain ⟨_, _, hc0id⟩ := wf_member hall (List.mem_iff_getElem?.mpr ⟨idx, hget⟩)
  -- the duplicate the search found is the updated customer itself
  have hidm : d.customer_id = c0.customer_id := by
    apply wf_id_match hdid hc0id
    rw [hdpid, hid]
  have hieq : i = idx := by
    by_contra hne
    rcases pairwiseB_ne_positions hpw hne hi hget with hx | hx
    · exact (wfPairB_spec hx).2.2 hidm
    · exact (wfPairB_spec hx).2.2 hidm.symm
  subst hieq
  have hdc0 : d = c0 := by
    rw [hi] at hget
    simpa using hget
  subst hdc0
  -- now b (at j ≠ idx) and d (at idx) both carry phone np
  obtain ⟨_, _, hdd⟩ := wf_member hall hdmem
  obtain ⟨⟨hdd2, _⟩, _, _⟩ := wf_member hall hdmem
  have hdph : d.phone = np := by
    rw [← normKey_of_all_isDig hdd2]
    exact hdnk
  rcases pairwiseB_ne_positions hpw (Ne.symm hj) hi hb with hx | hx
  · exact (wfPairB_spec hx).1 (by rw [hdph, hcontra])
  · exact (wfPairB_spec hx).1 (by rw [hdph, hcontra])

/-- Email analogue of `update_unique_phone`. -/
theorem update_unique_email {st : Store} {k : Nat} {idx : Nat} {c0 : Customer}
    {pid ne : Str}
    (hcnt : counterOf st = some k) (hwf : WFc st = true)
    (hget : st.customers[idx]? = some c0)
    (hid : normKey c0.customer_id = normKey pid)
    (ht : emailRegexTest ne = true) (hn : normKey ne = ne)
    (hdup : ∀ d, findCustomerByEmail st.customers ne = some d →
      d.customer_id = pid) :
    ∀ (j : Nat) (b : Customer), j ≠ idx → st.customers[j]? = some b →
      b.email ≠ ne := by
  obtain ⟨hall, hpw⟩ := WFc_parts hcnt hwf
  intro j b hj hb hcontra
  have hbmem : b ∈ st.customers := List.mem_iff_getElem?.mpr ⟨j, hb⟩
  obtain ⟨_, hbem, hbid⟩ := wf_member hall hbmem
  have hnenil : ne ≠ [] := emailRegexTest_ne_nil ht
  have hbnk : normKey b.email = ne := by
    rcases hbem with hx | hx
    · rw [hcontra] at hx
      exact absurd hx hnenil
    · rw [hcontra] at hx ⊢
      exact hx.2
  obtain ⟨d, hdfind⟩ := findByEmail_exists ht hn hbmem hbnk
  obtain ⟨hdmem, hdnk⟩ := findByEmail_some_spec ht hn hdfind
  have hdpid := hdup d hdfind
  obtain ⟨i, hi⟩ := List.getElem?_of_mem hdmem
  obtain ⟨_, hdem, hdid⟩ := wf_member hall hdmem
  obtain ⟨_, _, hc0id⟩ := wf_member hall (List.mem_iff_getElem?.mpr ⟨idx, hget⟩)
  have hidm : d.customer_id = c0.customer_id := by
    apply wf_id_match hdid hc0id
    rw [hdpid, hid]
  have hieq : i = idx := by
    by_contra hne2
    rcases pairwiseB_ne_positions hpw hne2 hi hget with hx | hx
    · exact (wfPairB_spec hx).2.2 hidm
    · exact (wfPairB_spec hx).2.2 hidm.symm
  subst hieq
  have hdc0 : d = c0 := by
    rw [hi] at hget
    simpa using hget
  subst hdc0
  have hdeml : d.email = ne := by
    rcases hdem with hx | hx
    · rw [hx] at hdnk
      have hz : ([] : Str) = ne := hdnk
      exact absurd hz.symm hnenil
    · rw [← hx.2]
      exact hdnk
  rcases pairwiseB_ne_positions hpw (Ne.symm hj) hi hb with hx | hx
  · have hne2 := (wfPairB_spec hx).2.1 (by rw [hdeml]; exact hnenil)
      (by rw [hcontra]; exact hnenil)
    exact hne2 (by rw [hdeml, hcontra])
  · have hne2 := (wfPairB_spec hx).2.1 (by rw [hcontra]; exact hnenil)
      (by rw [hdeml]; exact hnenil)
    exact hne2 (by rw [hcontra, hdeml])

theorem counterOf_set_customers (st : Store) (cs : List Customer) :
    counterOf { st with customers := cs } = counterOf st := rfl

theorem WFc_counter {st : Store} (hwf : WFc st = true) :
    ∃ k, counterOf st = some k := by
  unfold WFc at hwf
  cases hx : counterOf st with
  | none => rw [hx] at hwf; exact absurd hwf (by simp)
  | some k => exact ⟨k, rfl⟩

theorem wfPairB_build {a b : Customer} (hp : a.phone ≠ b.phone)
    (he : a.email = [] ∨ b.email = [] ∨ a.email ≠ b.email)
    (hi : a.customer_id ≠ b.customer_id) : wfPairB a b = true := by
  unfold wfPairB
  rw [Bool.and_eq_true, Bool.and_eq_true]
  refine ⟨⟨by simpa using hp, ?_⟩, by simpa using hi⟩
  rw [Bool.or_eq_true, Bool.or_eq_true]
  rcases he with hx | hx | hx
  · exact Or.inl (Or.inl (by simpa using hx))
  · exact Or.inl (Or.inr (by simpa using hx))
  · exact Or.inr (by simpa using hx)

theorem wf_field_build {k : Nat} {c : Customer}
    (hp : c.phone.all isDig = true ∧ c.phone.length = 10)
    (he : c.email = [] ∨ (emailRegexTest c.email = true ∧ normKey c.email = c.email))
    (hi : wfId k c.customer_id = true) :
    (wfPhone c.phone && wfEmail c.email && wfId k c.customer_id) = true := by
  rw [Bool.and_eq_true, Bool.and_eq_true]
  refine ⟨⟨?_, ?_⟩, hi⟩
  · unfold wfPhone
    rw [Bool.and_eq_true]
    exact ⟨hp.1, by simpa using hp.2⟩
  · unfold wfEmail
    rw [Bool.or_eq_true]
    rcases he with hx | hx
    · exact Or.inl (by simpa using hx)
    · refine Or.inr ?_
      rw [Bool.and_eq_true]
      exact ⟨hx.1, by simpa using hx.2⟩

/-- `registerCustomer` preserves store well-formedness. -/
theorem registerCustomer_preserves_WF (st : Store) (f l ph em : Option Str)
    (now : Str) (hwf : WFc st = true) :
    WFc (registerCustomer st f l ph em now).2 = true := by
  rcases registerCustomer_cases st f l ph em now with
    hunch | ⟨c, st2, heq, hgen, hdig, hlen, hfp, hem, _⟩
  · rw [hunch]
    exact hwf
  · obtain ⟨k, hcnt⟩ := WFc_counter hwf
    obtain ⟨hall, hpw⟩ := WFc_parts hcnt hwf
    obtain ⟨st2', hgen', hcnt2, hcust2, _, _⟩ := counterOf_generate hcnt
    rw [hgen'] at hgen
    simp only [Except.ok.injEq, Prod.mk.injEq] at hgen
    obtain ⟨hcid, hst2⟩ := hgen
    subst hst2
    rw [heq]
    show WFc { st2' with customers := st2'.customers ++ [c] } = true
    unfold WFc
    rw [counterOf_set_customers, hcnt2]
    show (List.all (st2'.customers ++ [c]) (fun x => wfPhone x.phone &&
      wfEmail x.email && wfId (k + 1) x.customer_id) &&
      pairwiseB wfPairB (st2'.customers ++ [c])) = true
    rw [hcust2, Bool.and_eq_true]
    constructor
    · rw [List.all_append, Bool.and_eq_true]
      constructor
      · rw [List.all_eq_true]
        intro b hb
        obtain ⟨hbp, hbe, hbi⟩ := wf_member hall hb
        exact wf_field_build hbp hbe (wfId_mono (by omega) hbi)
      · rw [List.all_eq_true]
        intro b hb
        have hbc : b = c := by simpa using hb
        subst hbc
        refine wf_field_build ⟨hdig, hlen⟩ ?_ ?_
        · rcases hem with hx | ⟨ht, hn, _⟩
          · exact Or.inl hx
          · exact Or.inr ⟨ht, hn⟩
        · rw [← hcid]
          exact wfId_fmtCid (by omega) (by omega)
    · apply pairwiseB_append_singleton hpw
      intro b hb
      obtain ⟨⟨hbd, hbl⟩, hbe, hbi⟩ := wf_member hall hb
      apply wfPairB_build
      · intro hx
        have := findByPhone_none_all hdig hlen hfp b hb
        rw [normKey_of_all_isDig hbd] at this
        exact this hx
      · rcases hem with hx | ⟨ht, hn, hfe⟩
        · exact Or.inr (Or.inl hx)
        · rcases hbe with hy | ⟨_, hyn⟩
          · exact Or.inl hy
          · refine Or.inr (Or.inr ?_)
            intro hx
            have := findByEmail_none_all ht hn hfe b hb
            rw [hyn] at this
            exact this hx
      · obtain ⟨mb, _, hmb, hbid⟩ := wfId_num hbi
        rw [hbid, ← hcid]
        intro hx
        have := fmtCid_inj hx
        omega

/-- `updateCustomer` preserves store well-formedness. -/
theorem updateCustomer_preserves_WF (st : Store) (p : UpdatePayload)
    (hwf : WFc st = true) : WFc (updateCustomer st p).2 = true := by
  rcases updateCustomer_cases st p with
    ⟨hunch, _⟩ | ⟨idx, c0, c', _, hst, hget, hnkey, _, hcid, _, _, _, hphn, hphs,
      hemn, hems⟩
  · rw [hunch]
    exact hwf
  · obtain ⟨k, hcnt⟩ := WFc_counter hwf
    obtain ⟨hall, hpw⟩ := WFc_parts hcnt hwf
    have hidxlt : idx < st.customers.length := by
      by_contra hx
      rw [List.getElem?_eq_none (by omega)] at hget
      exact absurd hget (by simp)
    obtain ⟨⟨h0d, h0l⟩, h0e, h0i⟩ :=
      wf_member hall (List.mem_iff_getElem?.mpr ⟨idx, hget⟩)
    -- well-formedness of the rewritten row's fields
    have hcph : c'.phone.all isDig = true ∧ c'.phone.length = 10 := by
      cases hx : p.phone with
      | none =>
        rw [hphn hx]
        exact ⟨h0d, h0l⟩
      | some v =>
        obtain ⟨hval, _⟩ := hphs v hx
        obtain ⟨_, hd2, hl2⟩ := phoneValidator_value_spec hval
        exact ⟨hd2, hl2⟩
    have hcem : c'.email = [] ∨
        (emailRegexTest c'.email = true ∧ normKey c'.email = c'.email) := by
      cases hx : p.email with
      | none =>
        rw [hemn hx]
        exact h0e
      | some v =>
        obtain ⟨hval, _⟩ := hems v hx
        obtain ⟨_, ht2, hn2, _⟩ := emailValidator_value_spec hval
        exact Or.inr ⟨ht2, hn2⟩
    rw [hst]
    unfold WFc
    rw [counterOf_set_customers, hcnt]
    show (List.all (st.customers.set idx c') (fun x => wfPhone x.phone &&
      wfEmail x.email && wfId k x.customer_id) &&
      pairwiseB wfPairB (st.customers.set idx c')) = true
    rw [Bool.and_eq_true]
    constructor
    · apply all_set hall
      refine wf_field_build hcph hcem ?_
      rw [hcid]
      exact h0i
    · -- pairwise distinctness after the in-place rewrite
      apply pairwiseB_of_get
      intro i j a b hij ha hb
      by_cases hi : i = idx
      · subst hi
        rw [List.getElem?_set_eq_of_lt _ hidxlt] at ha
        have hac : c' = a := by simpa using ha
        subst hac
        rw [List.getElem?_set_ne (by omega)] at hb
        apply wfPairB_build
        · cases hx : p.phone with
          | none =>
            rw [hphn hx]
            rcases pairwiseB_ne_positions hpw (show i ≠ j by omega) hget hb with
              hy | hy
            · exact (wfPairB_spec hy).1
            · exact fun hz => (wfPairB_spec hy).1 hz.symm
          | some v =>
            obtain ⟨hval, hdup⟩ := hphs v hx
            have := update_unique_phone hcnt hwf hget hnkey hcph.1 hcph.2 hdup
              j b (by omega) hb
            exact fun hz => this hz.symm
        · cases hx : p.email with
          | none =>
            rw [hemn hx]
            rcases h0e with hy | _
            · rw [← hemn hx] at hy
              rw [hemn hx] at hy
              exact Or.inl hy
            · rcases pairwiseB_ne_positions hpw (show i ≠ j by omega) hget hb with
                hy | hy
              · by_cases hz1 : c0.email = []
                · exact Or.inl hz1
                · by_cases hz2 : b.email = []
                  · exact Or.inr (Or.inl hz2)
                  · exact Or.inr (Or.inr ((wfPairB_spec hy).2.1 hz1 hz2))
              · by_cases hz1 : c0.email = []
                · exact Or.inl hz1
                · by_cases hz2 : b.email = []
                  · exact Or.inr (Or.inl hz2)
                  · exact Or.inr (Or.inr
                      (fun hw => (wfPairB_spec hy).2.1 hz2 hz1 hw.symm))
          | some v =>
            obtain ⟨hval, hdup⟩ := hems v hx
            obtain ⟨_, ht2, hn2, hne2⟩ := emailValidator_value_spec hval
            have := update_unique_email hcnt hwf hget hnkey ht2 hn2 hdup
              j b (by omega) hb
            exact Or.inr (Or.inr (fun hz => this hz.symm))
        · rw [hcid]
          rcases pairwiseB_ne_positions hpw (show i ≠ j by omega) hget hb with
            hy | hy
          · exact (wfPairB_spec hy).2.2
          · exact fun hz => (wfPairB_spec hy).2.2 hz.symm
      · by_cases hj : j = idx
        · subst hj
          rw [List.getElem?_set_eq_of_lt _ hidxlt] at hb
          have hbc : c' = b := by simpa using hb
          subst hbc
          rw [List.getElem?_set_ne (by omega)] at ha
          apply wfPairB_build
          · cases hx : p.phone with
            | none =>
              rw [hphn hx]
              rcases pairwiseB_ne_positions hpw (show i ≠ j by omega) ha hget with
                hy | hy
              · exact (wfPairB_spec hy).1
              · exact fun hz => (wfPairB_spec hy).1 hz.symm
            | some v =>
              obtain ⟨hval, hdup⟩ := hphs v hx
              exact update_unique_phone hcnt hwf hget hnkey hcph.1 hcph.2 hdup
                i a (by omega) ha
          · cases hx : p.email with
            | none =>
              rw [hemn hx]
              rcases pairwiseB_ne_positions hpw (show i ≠ j by omega) ha hget with
                hy | hy
              · by_cases hz1 : a.email = []
                · exact Or.inl hz1
                · by_cases hz2 : c0.email = []
                  · exact Or.inr (Or.inl hz2)
                  · exact Or.inr (Or.inr ((wfPairB_spec hy).2.1 hz1 hz2))
              · by_cases hz1 : a.email = []
                · exact Or.inl hz1
                · by_cases hz2 : c0.email = []
                  · exact Or.inr (Or.inl hz2)
                  · exact Or.inr (Or.inr
                      (fun hw => (wfPairB_spec hy).2.1 hz2 hz1 hw.symm))
            | some v =>
              obtain ⟨hval, hdup⟩ := hems v hx
              obtain ⟨_, ht2, hn2, _⟩ := emailValidator_value_spec hval
              exact Or.inr (Or.inr (update_unique_email hcnt hwf hget hnkey
                ht2 hn2 hdup i a (by omega) ha))
          · rw [hcid]
            rcases pairwiseB_ne_positions hpw (show i ≠ j by omega) ha hget with
              hy | hy
            · exact (wfPairB_spec hy).2.2
            · exact fun hz => (wfPairB_spec hy).2.2 hz.symm
        · rw [List.getElem?_set_ne (by omega)] at ha
          rw [List.getElem?_set_ne (by omega)] at hb
          exact pairwiseB_get hpw i j a b hij ha hb

theorem WF_implies_bare {st : Store} (hwf : WFc st = true) :
    bareInvariantB st.customers = true := by
  obtain ⟨k, hcnt⟩ := WFc_counter hwf
  obtain ⟨hall, hpw⟩ := WFc_parts hcnt hwf
  unfold bareInvariantB
  apply pairwiseB_of_get
  intro i j a b hij ha hb
  have hmem_a : a ∈ st.customers := List.mem_iff_getElem?.mpr ⟨i, ha⟩
  have hmem_b : b ∈ st.customers := List.mem_iff_getElem?.mpr ⟨j, hb⟩
  obtain ⟨_, hea, _⟩ := wf_member hall hmem_a
  obtain ⟨_, heb, _⟩ := wf_member hall hmem_b
  obtain ⟨hphab, hemab, _⟩ := wfPairB_spec (pairwiseB_get hpw i j a b hij ha hb)
  unfold custDistinctB
  rw [Bool.and_eq_true]
  refine ⟨by simpa using hphab, ?_⟩
  rw [Bool.or_eq_true, Bool.or_eq_true]
  by_cases hz1 : a.email = []
  · exact Or.inl (Or.inl (by simpa using hz1))
  · by_cases hz2 : b.email = []
    · exact Or.inl (Or.inr (by simpa using hz2))
    · refine Or.inr ?_
      simp only [decide_eq_true_eq]
      intro hx
      rcases hea with hy | ⟨_, hna⟩
      · exact hz1 hy
      · rcases heb with hy | ⟨_, hnb⟩
        · exact hz2 hy
        · rw [normKey_lower_fixed hna, normKey_lower_fixed hnb] at hx
          exact hemab hz1 hz2 hx

theorem applyOps_preserves_WF (ops : List CustOp) (st : Store)
    (hwf : WFc st = true) : WFc (applyOps st ops) = true := by
  induction ops generalizing st with
  | nil => exact hwf
  | cons o rest ih =>
    show WFc (applyOps (applyOp st o) rest) = true
    apply ih
    cases o with
    | reg f l ph e now => exact registerCustomer_preserves_WF st f l ph e now hwf
    | upd p => exact updateCustomer_preserves_WF st p hwf

-- ======================= C4 =======================

/-- Counterexample store for C4: two customers with distinct raw phones
that normalise to the same digits (the first stored with a trailing
space). -/
def cxA : Customer :=
  { customer_id := ("C00001").data, first_name := ("Ann").data,
    last_name := ("Lee").data, phone := ("5550001111 ").data,
    email := [], registered_at := ("2024-01-01").data }

def cxB : Customer :=
  { customer_id := ("C00002").data, first_name := ("Bob").data,
    last_name := ("Roy").data, phone := ("5550001111").data,
    email := [], registered_at := ("2024-01-02").data }

def stC4 : Store :=
  { customers := [cxA, cxB],
    settings := some [(("last_customer_id_number").data, Cell.num 2)],
    sales := [], summary := none }

def pC4 : UpdatePayload :=
  { customer_id := ("C00001").data, first_name := none, last_name := none,
    phone := some ("5550001111").data, email := none }

/-- C4 counterexample: the store satisfies the spec's literal customer
invariant, yet a single `updateCustomer` call breaks it — the duplicate
scan normalises the stored phone, first-matches the caller's own row and
is exempted, then writes a phone equal to another customer's. -/
theorem C4_counterexample :
    bareInvariantB stC4.customers = true ∧
    bareInvariantB (applyOps stC4 [CustOp.upd pC4]).customers = false :=
  ⟨by decide, by decide⟩

/-- C4 (amended): on a well-formed store — normalised phones/emails,
canonical distinct ids bounded by the counter — the customer-uniqueness
invariant holds and is preserved by every sequence of `registerCustomer`
and `updateCustomer` calls. -/
theorem C4_amended (ops : List CustOp) (st : Store) (h : WFc st = true) :
    bareInvariantB st.customers = true ∧
    bareInvariantB (applyOps st ops).customers = true :=
  ⟨WF_implies_bare h, WF_implies_bare (applyOps_preserves_WF ops st h)⟩

def cW4 : Customer :=
  { customer_id := ("C00001").data, first_name := ("Ann").data,
    last_name := ("Lee").data, phone := ("5550001111").data,
    email := ("ann@example.com").data,
    registered_at := ("2024-01-01").data }

def stC4w : Store :=
  { customers := [cW4],
    settings := some [(("last_customer_id_number").data, Cell.num 1)],
    sales := [], summary := none }

def pC4w : UpdatePayload :=
  { customer_id := ("C00001").data, first_name := some ("Anna").data,
    last_name := none, phone := none, email := none }

def opsC4w : List CustOp := [CustOp.upd pC4w]

theorem fmtCid_one : fmtCid 1 = ("C00001").data := by
  unfold fmtCid
  rw [show natToDigits 1 = [('1' : Char)] from by simp [natToDigits, digitChar]]
  rfl

theorem wfId_C00001 : wfId 1 (("C00001").data) = true := by
  unfold wfId
  rw [show idNumOf (("C00001").data) = some 1 from by decide]
  show (decide (1 ≤ 1) && decide (1 ≤ 1) &&
    decide (("C00001").data = fmtCid 1)) = true
  rw [fmtCid_one]
  decide

theorem stC4w_wf : WFc stC4w = true := by
  show (List.all stC4w.customers (fun c => wfPhone c.phone && wfEmail c.email &&
    wfId 1 c.customer_id) && pairwiseB wfPairB stC4w.customers) = true
  rw [Bool.and_eq_true]
  refine ⟨?_, by decide⟩
  rw [List.all_eq_true]
  intro b hb
  have hbc : b = cW4 := by simpa [stC4w] using hb
  subst hbc
  rw [Bool.and_eq_true, Bool.and_eq_true]
  exact ⟨⟨by decide, by decide⟩, wfId_C00001⟩

theorem C4_amended_witness :
    WFc stC4w = true ∧ bareInvariantB (applyOps stC4w opsC4w).customers = true :=
  ⟨stC4w_wf, (C4_amended opsC4w stC4w stC4w_wf).2⟩

-- ======================= C7 =======================

def cW7 : Customer :=
  { customer_id := ("C00001").data, first_name := ("Ann").data,
    last_name := ("Lee").data, phone := ("5550001111").data,
    email := [], registered_at := ("2024-01-01").data }

def stC7 : Store :=
  { customers := [cW7],
    settings := some [(("last_customer_id_number").data, Cell.num 1)],
    sales := [], summary := none }

def pC7 : UpdatePayload :=
  { customer_id := ("C00001").data, first_name := some ((" ").data),
    last_name := none, phone := none, email := none }

/-- C7 counterexample: registration rejects a blank `first_name`, but
`updateCustomer` applies no such validation — the same blank value is
accepted and the empty string is persisted. -/
theorem C7_counterexample :
    (∃ m, (registerCustomer stC7 (some ((" ").data)) (some (("Lee").data))
      (some (("5550002222").data)) none (("2024-01-03").data)).1 = .error m) ∧
    (updateCustomer stC7 pC7).1 = .ok { cW7 with first_name := [] } ∧
    (updateCustomer stC7 pC7).2.customers = [{ cW7 with first_name := [] }] :=
  ⟨⟨_, rfl⟩, by rfl, by decide⟩

/-- C7 (amended): `updateCustomer` is atomic — any failure leaves the
store untouched — and on success rewrites exactly the located row with
only the provided fields merged; provided phone/email pass the
registration validators and, on a well-formed store, differ from every
OTHER customer's stored value; but `first_name`/`last_name` are merely
trimmed, never re-validated as registration requires. -/
theorem C7_amended (st : Store) (p : UpdatePayload) (hwf : WFc st = true) :
    ((updateCustomer st p).2 = st ∧ ∃ m, (updateCustomer st p).1 = .error m) ∨
    (∃ idx c0 c', (updateCustomer st p).1 = .ok c' ∧
      (updateCustomer st p).2 = { st with customers := st.customers.set idx c' } ∧
      st.customers[idx]? = some c0 ∧
      c'.customer_id = c0.customer_id ∧
      c'.registered_at = c0.registered_at ∧
      c'.first_name = (match p.first_name with
        | none => c0.first_name | some v => jsTrim v) ∧
      c'.last_name = (match p.last_name with
        | none => c0.last_name | some v => jsTrim v) ∧
      (p.phone = none → c'.phone = c0.phone) ∧
      (∀ v, p.phone = some v → (_phoneValidator v).value = some c'.phone) ∧
      (p.email = none → c'.email = c0.email) ∧
      (∀ v, p.email = some v → (_emailValidator v).value = some c'.email) ∧
      (∀ (j : Nat) (d : Customer), st.customers[j]? = some d → j ≠ idx →
        (∀ v, p.phone = some v → d.phone ≠ c'.phone) ∧
        (∀ v, p.email = some v → d.email ≠ c'.email))) := by
  obtain ⟨k, hcnt⟩ := WFc_counter hwf
  rcases updateCustomer_cases st p with herr | ⟨idx, c0, c', hok, hst, hget, hnkey,
    _, hcid, hreg, hfn, hln, hphn, hphs, hemn, hems⟩
  · exact Or.inl herr
  · refine Or.inr ⟨idx, c0, c', hok, hst, hget, hcid, hreg, hfn, hln, hphn,
      fun v hv => (hphs v hv).1, hemn, fun v hv => (hems v hv).1, ?_⟩
    intro j d hd hj
    constructor
    · intro v hv
      obtain ⟨hval, hdup⟩ := hphs v hv
      obtain ⟨_, hd2, hl2⟩ := phoneValidator_value_spec hval
      exact update_unique_phone hcnt hwf hget hnkey hd2 hl2 hdup j d hj hd
    · intro v hv
      obtain ⟨hval, hdup⟩ := hems v hv
      obtain ⟨_, ht2, hn2, _⟩ := emailValidator_value_spec hval
      exact update_unique_email hcnt hwf hget hnkey ht2 hn2 hdup j d hj hd

theorem stC7_wf : WFc stC7 = true := by
  show (List.all stC7.customers (fun c => wfPhone c.phone && wfEmail c.email &&
    wfId 1 c.customer_id) && pairwiseB wfPairB stC7.customers) = true
  rw [Bool.and_eq_true]
  refine ⟨?_, by decide⟩
  rw [List.all_eq_true]
  intro b hb
  have hbc : b = cW7 := by simpa [stC7] using hb
  subst hbc
  rw [Bool.and_eq_true, Bool.and_eq_true]
  exact ⟨⟨by decide, by decide⟩, wfId_C00001⟩

theorem C7_amended_witness :
    WFc stC7 = true ∧
    (((updateCustomer stC7 pC7).2 = stC7 ∧
        ∃ m, (updateCustomer stC7 pC7).1 = .error m) ∨
      (∃ idx c0 c', (updateCustomer stC7 pC7).1 = .ok c' ∧
        (updateCustomer stC7 pC7).2 =
          { stC7 with customers := stC7.customers.set idx c' } ∧
        stC7.customers[idx]? = some c0 ∧
        c'.customer_id = c0.customer_id ∧
        c'.registered_at = c0.registered_at ∧
        c'.first_name = (match pC7.first_name with
          | none => c0.first_name | some v => jsTrim v) ∧
        c'.last_name = (match pC7.last_name with
          | none => c0.last_name | some v => jsTrim v) ∧
        (pC7.phone = none → c'.phone = c0.phone) ∧
        (∀ v, pC7.phone = some v → (_phoneValidator v).value = some c'.phone) ∧
        (pC7.email = none → c'.email = c0.email) ∧
        (∀ v, pC7.email = some v → (_emailValidator v).value = some c'.email) ∧
        (∀ (j : Nat) (d : Customer), stC7.customers[j]? = some d → j ≠ idx →
          (∀ v, pC7.phone = some v → d.phone ≠ c'.phone) ∧
          (∀ v, pC7.email = some v → d.email ≠ c'.email)))) :=
  ⟨stC7_wf, C7_amended stC7 pC7 stC7_wf⟩

-- ======================= sale-ledger lemmas =======================

/-- The sale record `registerSale` constructs from the validated
inputs (abbreviation for lemma statements). -/
def mkSaleRec (sid cid : Str) (q a : Int) (now : Str) : SaleRec :=
  { sale_id := sid, customer_id := cid, quantity := q,
    unit_price := DEFAULT_UNIT_PRICE, total_price := q * DEFAULT_UNIT_PRICE,
    amount_paid := a, pending_balance := q * DEFAULT_UNIT_PRICE - a,
    status := _calculateSaleStatus (q * DEFAULT_UNIT_PRICE) a,
    sale_datetime := now, last_payment_datetime := now }

theorem generateSaleId_ok_parts {st : Store} {sid : Str} {st2 : Store}
    (h : _generateNextSaleId st = .ok (sid, st2)) :
    st2.sales = st.sales ∧ st2.customers = st.customers := by
  unfold _generateNextSaleId at h
  cases hs : st.settings with
  | none =>
    rw [hs] at h
    exact absurd h (by simp)
  | some rows =>
    rw [hs] at h
    have h2 : (match allocFromSettings (("last_sale_id_number").data) rows with
      | none => (Except.error (("Failed to generate a new sale ID.").data) :
          Except Str (Str × Store))
      | some (nextIdNum, rows2) =>
        Except.ok ('S' :: padStart5 (jsNumToString nextIdNum),
          { st with settings := some rows2 })) = .ok (sid, st2) := h
    cases ha : allocFromSettings (("last_sale_id_number").data) rows with
    | none =>
      rw [ha] at h2
      exact absurd h2 (by simp)
    | some pr =>
      obtain ⟨n, rows2⟩ := pr
      rw [ha] at h2
      have h' : (Except.ok ('S' :: padStart5 (jsNumToString n),
          { st with settings := some rows2 }) : Except Str (Str × Store)) =
          .ok (sid, st2) := h2
      simp only [Except.ok.injEq, Prod.mk.injEq] at h'
      rw [← h'.2]
      exact ⟨rfl, rfl⟩

theorem sheetLookup_setSheetRows_self {l : List (Str × Sheet)} {name : Str}
    {sh0 : Sheet} (h : sheetLookup l name = some sh0) (sh : Sheet) :
    sheetLookup (setSheetRows l name sh) name = some sh := by
  induction l with
  | nil => simp [sheetLookup] at h
  | cons p rest ih =>
    obtain ⟨n, s⟩ := p
    by_cases hn : n = name
    · subst hn
      unfold setSheetRows
      rw [if_pos rfl]
      unfold sheetLookup
      rw [List.find?_cons_of_pos _ (by simp)]
      rfl
    · unfold sheetLookup at h
      rw [List.find?_cons_of_neg _ (by simpa using hn)] at h
      unfold setSheetRows
      rw [if_neg hn]
      unfold sheetLookup
      rw [List.find?_cons_of_neg _ (by simpa using hn)]
      exact ih h

theorem sheetLookup_append_absent {l : List (Str × Sheet)} {name : Str}
    (h : sheetLookup l name = none) (sh : Sheet) :
    sheetLookup (l ++ [(name, sh)]) name = some sh := by
  unfold sheetLookup at h ⊢
  rw [List.find?_append]
  have hf : l.find? (fun p => decide (p.1 = name)) = none := by
    cases hf2 : l.find? (fun p => decide (p.1 = name)) with
    | none => rfl
    | some p =>
      rw [hf2] at h
      exact absurd h (by simp)
  rw [hf]
  show (List.find? (fun p => decide (p.1 = name)) [(name, sh)]).map Prod.snd =
    some sh
  rw [List.find?_cons_of_pos _ (by simp)]
  rfl

theorem getSalesSheet_lookup (st : Store) (month : Str) :
    sheetLookup (_getSalesSheetForMonth st month).2.sales (monthSheetName month) =
      some (_getSalesSheetForMonth st month).1 := by
  cases hl : sheetLookup st.sales (monthSheetName month) with
  | some sh =>
    have h1 : _getSalesSheetForMonth st month = (sh, st) := by
      unfold _getSalesSheetForMonth
      simp only [hl]
    rw [h1]
    exact hl
  | none =>
    have h1 : _getSalesSheetForMonth st month =
        (({ header := salesHeader, rows := [] } : Sheet),
         { st with sales := st.sales ++ [(monthSheetName month,
             ({ header := salesHeader, rows := [] } : Sheet))] }) := by
      unfold _getSalesSheetForMonth
      simp only [hl]
    rw [h1]
    exact sheetLookup_append_absent hl _

/-- The success path of `registerSale`, explicitly. -/
theorem registerSale_ok_spec (st : Store) (cid : Str) (qty ap : Option Rat)
    (month now sid : Str) (st2 : Store)
    (hv : _validateSale st cid qty ap = none)
    (halloc : _generateNextSaleId (_getSalesSheetForMonth st month).2 =
      .ok (sid, st2)) :
    registerSale st cid qty ap month now =
      (.ok (mkSaleRec sid cid (qty.getD 0).num (ap.getD 0).num now),
       { st2 with sales := (setSheetRows st2.sales (monthSheetName month)
           ({ (_getSalesSheetForMonth st month).1 with
              rows := (_getSalesSheetForMonth st month).1.rows ++
                [saleRow (_getSalesSheetForMonth st month).1.header
                  (mkSaleRec sid cid (qty.getD 0).num (ap.getD 0).num now)] })) }) := by
  unfold registerSale
  rw [hv]
  show (match _generateNextSaleId (_getSalesSheetForMonth st month).2 with
    | .error m => ((.error m : Except Str SaleRec), (_getSalesSheetForMonth st month).2)
    | .ok (saleId, st2) =>
      (((.ok (mkSaleRec saleId cid (qty.getD 0).num (ap.getD 0).num now)) :
          Except Str SaleRec),
        { st2 with sales := (setSheetRows st2.sales (monthSheetName month)
            ({ (_getSalesSheetForMonth st month).1 with
               rows := (_getSalesSheetForMonth st month).1.rows ++
                 [saleRow (_getSalesSheetForMonth st month).1.header
                   (mkSaleRec saleId cid (qty.getD 0).num (ap.getD 0).num now)] })) })) = _
  rw [halloc]

theorem registerSale_err (st : Store) (cid : Str) (qty ap : Option Rat)
    (month now : Str) (msg : Str)
    (hv : _validateSale st cid qty ap = some msg) :
    registerSale st cid qty ap month now = (.error msg, st) := by
  unfold registerSale
  rw [hv]

/-- What passing `_validateSale` guarantees, in source-check order. -/
theorem validateSale_none_spec {st : Store} {cid : Str} {qty ap : Option Rat}
    (h : _validateSale st cid qty ap = none) :
    ∃ q a, qty = some q ∧ ap = some a ∧
      cid.isEmpty = false ∧
      _customerIdIsValid cid = true ∧
      _customerExists st.customers cid = true ∧
      q.isInt = true ∧ a.isInt = true ∧
      0 < q ∧ 0 ≤ a ∧ a ≤ q * ((DEFAULT_UNIT_PRICE : Int) : Rat) := by
  unfold _validateSale at h
  by_cases h1 : (cid.isEmpty || qty.isNone || ap.isNone) = true
  · rw [if_pos h1] at h
    exact absurd h (by simp)
  · rw [if_neg h1] at h
    rw [Bool.or_eq_true, Bool.or_eq_true] at h1
    push_neg at h1
    have hcid : cid.isEmpty = false := by
      simpa using h1.1.1
    have hq : qty ≠ none := by
      simpa using h1.1.2
    have ha : ap ≠ none := by
      simpa using h1.2
    obtain ⟨q, hq⟩ : ∃ q, qty = some q := by
      cases qty with
      | none => exact absurd rfl hq
      | some q => exact ⟨q, rfl⟩
    obtain ⟨a, ha⟩ : ∃ a, ap = some a := by
      cases ap with
      | none => exact absurd rfl ha
      | some a => exact ⟨a, rfl⟩
    subst hq
    subst ha
    by_cases h2 : (!_customerIdIsValid cid) = true
    · rw [if_pos h2] at h
      exact absurd h (by simp)
    · rw [if_neg h2] at h
      by_cases h3 : (!_customerExists st.customers cid) = true
      · rw [if_pos h3] at h
        exact absurd h (by simp)
      · rw [if_neg h3] at h
        have h4 : (if !(q.isInt && a.isInt) then
            some (("Quantity and amountPaid must be integers.").data)
          else if q ≤ 0 then
            some (("Quantity must be greater than 0.").data)
          else if a < 0 then
            some (("Amount paid cannot be a negative number.").data)
          else if a > q * ((DEFAULT_UNIT_PRICE : Int) : Rat) then
            some (("Amount paid cannot be greater than the total price.").data)
          else none) = none := h
        by_cases h5 : (!(q.isInt && a.isInt)) = true
        · rw [if_pos h5] at h4
          exact absurd h4 (by simp)
        · rw [if_neg h5] at h4
          have hints : (q.isInt && a.isInt) = true := by simpa using h5
          rw [Bool.and_eq_true] at hints
          by_cases h6 : q ≤ 0
          · rw [if_pos h6] at h4
            exact absurd h4 (by simp)
          · rw [if_neg h6] at h4
            by_cases h7 : a < 0
            · rw [if_pos h7] at h4
              exact absurd h4 (by simp)
            · rw [if_neg h7] at h4
              by_cases h8 : a > q * ((DEFAULT_UNIT_PRICE : Int) : Rat)
              · rw [if_pos h8] at h4
                exact absurd h4 (by simp)
              · exact ⟨q, a, rfl, rfl, hcid, by simpa using h2, by simpa using h3,
                  hints.1, hints.2, not_le.mp h6, not_lt.mp h7, not_lt.mp h8⟩

-- ======================= C5 =======================

/-- C5: `registerSale` rejects before any mutation — an unknown
customer, a non-integer quantity or amount, a non-positive quantity, a
negative amount, or an amount above `quantity * unit_price` yields an
error result and leaves the store (hence every segment) exactly as it
was. -/
theorem C5_reject_before_mutation (st : Store) (cid : Str) (q a : Rat)
    (month now : Str)
    (hbad : _customerExists st.customers cid = false ∨
      q.isInt = false ∨ a.isInt = false ∨ q ≤ 0 ∨ a < 0 ∨
      q * ((DEFAULT_UNIT_PRICE : Int) : Rat) < a) :
    ∃ m, registerSale st cid (some q) (some a) month now = (.error m, st) := by
  cases hv : _validateSale st cid (some q) (some a) with
  | some msg => exact ⟨msg, registerSale_err st cid (some q) (some a) month now msg hv⟩
  | none =>
    obtain ⟨q', a', hq', ha', _, _, hex, hqi, hai, hqpos, hanneg, hamax⟩ :=
      validateSale_none_spec hv
    have hq2 : q' = q := by simpa using hq'.symm
    have ha2 : a' = a := by simpa using ha'.symm
    subst hq2
    subst ha2
    rcases hbad with hx | hx | hx | hx | hx | hx
    · rw [hex] at hx
      exact absurd hx (by simp)
    · rw [hqi] at hx
      exact absurd hx (by simp)
    · rw [hai] at hx
      exact absurd hx (by simp)
    · exact absurd hx (not_le.mpr hqpos)
    · exact absurd hx (not_lt.mpr hanneg)
    · exact absurd hx (not_lt.mpr hamax)

def stC5 : Store :=
  { customers := [cW7],
    settings := some [(("last_sale_id_number").data, Cell.num 0)],
    sales := [], summary := none }

theorem C5_reject_before_mutation_witness :
    (_customerExists stC5.customers (("C00002").data) = false ∨
      (1 : Rat).isInt = false ∨ (0 : Rat).isInt = false ∨ (1 : Rat) ≤ 0 ∨
      (0 : Rat) < 0 ∨ (1 : Rat) * ((DEFAULT_UNIT_PRICE : Int) : Rat) < 0) ∧
    ∃ m, registerSale stC5 (("C00002").data) (some 1) (some 0)
      (("2024-01").data) (("2024-01-05T09:00:00").data) = (.error m, stC5) :=
  ⟨by decide, C5_reject_before_mutation stC5 (("C00002").data) 1 0
    (("2024-01").data) (("2024-01-05T09:00:00").data) (by decide)⟩

-- ======================= C2 =======================

/-- C2: whenever validation passes (and the sale-id counter row is
usable, so the allocator succeeds), `registerSale` returns the new sale
with `total_price = quantity * 15000`, `pending_balance = total_price -
amount_paid` and the status derived from `(total_price, amount_paid)`,
and appends exactly the serialised row to the monthly segment for the
sale's creation month. -/
theorem C2_registerSale_success (st : Store) (cid : Str) (q a : Rat)
    (month now sid : Str) (st2 : Store)
    (hv : _validateSale st cid (some q) (some a) = none)
    (halloc : _generateNextSaleId (_getSalesSheetForMonth st month).2 =
      .ok (sid, st2)) :
    ∃ s st', registerSale st cid (some q) (some a) month now = (.ok s, st') ∧
      s.unit_price = DEFAULT_UNIT_PRICE ∧
      s.total_price = s.quantity * DEFAULT_UNIT_PRICE ∧
      s.pending_balance = s.total_price - s.amount_paid ∧
      s.status = _calculateSaleStatus s.total_price s.amount_paid ∧
      ((s.quantity : Rat) = q ∧ (s.amount_paid : Rat) = a) ∧
      ∃ sh, sheetLookup st'.sales (monthSheetName month) = some sh ∧
        sh.header = (_getSalesSheetForMonth st month).1.header ∧
        sh.rows = (_getSalesSheetForMonth st month).1.rows ++
          [saleRow (_getSalesSheetForMonth st month).1.header s] := by
  obtain ⟨q', a', hq', ha', _, _, _, hqi, hai, _, _, _⟩ := validateSale_none_spec hv
  have hq2 : q = q' := by simpa using hq'
  have ha2 : a = a' := by simpa using ha'
  subst hq2
  subst ha2
  have heq := registerSale_ok_spec st cid (some q) (some a) month now sid st2 hv halloc
  refine ⟨mkSaleRec sid cid q.num a.num now, _, heq, rfl, rfl, rfl, rfl,
    ⟨?_, ?_⟩, ?_⟩
  · show (q.num : Rat) = q
    exact (Rat.eq_num_of_isInt hqi).symm
  · show (a.num : Rat) = a
    exact (Rat.eq_num_of_isInt hai).symm
  · have hfound : sheetLookup st2.sales (monthSheetName month) =
        some (_getSalesSheetForMonth st month).1 := by
      rw [(generateSaleId_ok_parts halloc).1]
      exact getSalesSheet_lookup st month
    have hlook := sheetLookup_setSheetRows_self hfound
      ({ (_getSalesSheetForMonth st month).1 with
         rows := (_getSalesSheetForMonth st month).1.rows ++
           [saleRow (_getSalesSheetForMonth st month).1.header
             (mkSaleRec sid cid q.num a.num now)] })
    exact ⟨_, hlook, rfl, rfl⟩

def stC2 : Store :=
  { customers := [cW7],
    settings := some [(("last_sale_id_number").data, Cell.num 1)],
    sales := [], summary := none }

def monthC2 : Str := ("2024-01").data

def nowC2 : Str := ("2024-01-05T10:00:00").data

def st2C2 : Store :=
  { customers := [cW7],
    settings := some [(("last_sale_id_number").data, Cell.num 2)],
    sales := [((("sales_2024_01").data),
      ({ header := salesHeader, rows := [] } : Sheet))],
    summary := none }

theorem hallocC2 :
    _generateNextSaleId (_getSalesSheetForMonth stC2 monthC2).2 =
      .ok (("S00002").data, st2C2) := by
  have hsid : ('S' :: padStart5 (jsNumToString (some 2))) = ("S00002").data := by
    rw [show jsNumToString (some 2) = [('2' : Char)] from by
      simp [jsNumToString, jsIntToString, natToDigits, digitChar]]
    rfl
  show (Except.ok ('S' :: padStart5 (jsNumToString (some 2)), st2C2) :
    Except Str (Str × Store)) = .ok (("S00002").data, st2C2)
  rw [hsid]

theorem castPrice : ((DEFAULT_UNIT_PRICE : Int) : Rat) = (15000 : Rat) := by
  norm_num [DEFAULT_UNIT_PRICE]

theorem hvC2 : _validateSale stC2 (("C00001").data) (some 2) (some 15000) = none := by
  unfold _validateSale
  rw [castPrice]
  decide!

theorem C2_registerSale_success_witness :
    _validateSale stC2 (("C00001").data) (some 2) (some 15000) = none ∧
    (∃ s st', registerSale stC2 (("C00001").data) (some 2) (some 15000)
        monthC2 nowC2 = (.ok s, st') ∧
      s.unit_price = DEFAULT_UNIT_PRICE ∧
      s.total_price = s.quantity * DEFAULT_UNIT_PRICE ∧
      s.pending_balance = s.total_price - s.amount_paid ∧
      s.status = _calculateSaleStatus s.total_price s.amount_paid ∧
      ((s.quantity : Rat) = 2 ∧ (s.amount_paid : Rat) = 15000) ∧
      ∃ sh, sheetLookup st'.sales (monthSheetName monthC2) = some sh ∧
        sh.header = (_getSalesSheetForMonth stC2 monthC2).1.header ∧
        sh.rows = (_getSalesSheetForMonth stC2 monthC2).1.rows ++
          [saleRow (_getSalesSheetForMonth stC2 monthC2).1.header s]) :=
  ⟨hvC2, C2_registerSale_success stC2 (("C00001").data) 2 15000 monthC2
    nowC2 (("S00002").data) st2C2 hvC2 hallocC2⟩

-- ======================= C10 =======================

theorem registerCustomerFinish_ok_email {st : Store} {cf cl np ne now : Str}
    {c : Customer} (h : (registerCustomerFinish st cf cl np ne now).1 = .ok c) :
    c.email = ne := by
  unfold registerCustomerFinish at h
  by_cases h1 : (findCustomerByPhone st.customers np).isSome = true
  · rw [if_pos h1] at h
    exact absurd h (by simp)
  · rw [if_neg h1] at h
    by_cases h2 : (!ne.isEmpty && (findCustomerByEmail st.customers ne).isSome) = true
    · rw [if_pos h2] at h
      exact absurd h (by simp)
    · rw [if_neg h2] at h
      cases hg : _generateNextCustomerId st with
      | error m =>
        rw [hg] at h
        have h' : (Except.error m : Except Str Customer) = .ok c := h
        exact absurd h' (by simp)
      | ok pr =>
        obtain ⟨cid, st2⟩ := pr
        rw [hg] at h
        have h' : (Except.ok (⟨cid, cf, cl, np, ne, now⟩ : Customer) :
            Except Str Customer) = .ok c := h
        simp only [Except.ok.injEq] at h'
        rw [← h']

theorem registerCustomer_email_none {st : Store} {f l ph : Option Str}
    {now : Str} {c : Customer}
    (h : (registerCustomer st f l ph none now).1 = .ok c) : c.email = [] := by
  unfold registerCustomer at h
  by_cases h1 : (optFalsy (f.map jsTrim) || optFalsy (l.map jsTrim) ||
      optFalsy ph) = true
  · rw [if_pos h1] at h
    exact absurd h (by simp)
  · rw [if_neg h1] at h
    by_cases h2 : (!(_phoneValidator (ph.getD [])).success) = true
    · rw [if_pos h2] at h
      exact absurd h (by simp)
    · rw [if_neg h2] at h
      have h' : (registerCustomerFinish st ((f.map jsTrim).getD [])
          ((l.map jsTrim).getD [])
          ((_phoneValidator (ph.getD [])).value.getD []) [] now).1 = .ok c := h
      exact registerCustomerFinish_ok_email h'

/-- C10: the `newSale[header] || ""` serialisation maps falsy values to
the empty string — a sale with `amount_paid = 0` is persisted with an
empty-string `amount_paid` cell, a fully paid sale with an empty-string
`pending_balance` cell, while the returned record keeps the numeric
zeros; likewise a customer registered without an email stores the empty
string. -/
theorem C10_falsy_serialization (st : Store) (cid : Str) (q a : Rat)
    (month now sid : Str) (st2 : Store)
    (hv : _validateSale st cid (some q) (some a) = none)
    (halloc : _generateNextSaleId (_getSalesSheetForMonth st month).2 =
      .ok (sid, st2))
    (hhead : (_getSalesSheetForMonth st month).1.header = salesHeader) :
    ∃ s st', registerSale st cid (some q) (some a) month now = (.ok s, st') ∧
      ∃ sh row, sheetLookup st'.sales (monthSheetName month) = some sh ∧
        sh.rows = (_getSalesSheetForMonth st month).1.rows ++ [row] ∧
        (a = 0 → s.amount_paid = 0 ∧ row[5]? = some (Cell.str [])) ∧
        (s.pending_balance = 0 → row[6]? = some (Cell.str [])) ∧
        (∀ (stc : Store) (f l ph : Option Str) (now2 : Str) (c : Customer),
          (registerCustomer stc f l ph none now2).1 = .ok c → c.email = []) := by
  have heq := registerSale_ok_spec st cid (some q) (some a) month now sid st2 hv halloc
  have hfound : sheetLookup st2.sales (monthSheetName month) =
      some (_getSalesSheetForMonth st month).1 := by
    rw [(generateSaleId_ok_parts halloc).1]
    exact getSalesSheet_lookup st month
  have hlook := sheetLookup_setSheetRows_self hfound
    ({ (_getSalesSheetForMonth st month).1 with
       rows := (_getSalesSheetForMonth st month).1.rows ++
         [saleRow (_getSalesSheetForMonth st month).1.header
           (mkSaleRec sid cid q.num a.num now)] })
  refine ⟨mkSaleRec sid cid q.num a.num now, _, heq,
    _, saleRow (_getSalesSheetForMonth st month).1.header
      (mkSaleRec sid cid q.num a.num now), hlook, rfl, ?_, ?_, ?_⟩
  · intro ha0
    have hnum : a.num = 0 := by
      rw [ha0]
      simp
    refine ⟨hnum, ?_⟩
    rw [hhead]
    have h5 : (saleRow salesHeader (mkSaleRec sid cid q.num a.num now))[5]? =
        some (cellOrEmpty (Cell.num a.num)) := rfl
    rw [h5, hnum]
    rfl
  · intro hp0
    have hp : q.num * DEFAULT_UNIT_PRICE - a.num = 0 := hp0
    rw [hhead]
    have h6 : (saleRow salesHeader (mkSaleRec sid cid q.num a.num now))[6]? =
        some (cellOrEmpty (Cell.num (q.num * DEFAULT_UNIT_PRICE - a.num))) := rfl
    rw [h6, hp]
    rfl
  · intro stc f l ph now2 c hc
    exact registerCustomer_email_none hc

theorem hvC10 : _validateSale stC2 (("C00001").data) (some 2) (some 0) = none := by
  unfold _validateSale
  rw [castPrice]
  decide!

theorem C10_falsy_serialization_witness :
    _validateSale stC2 (("C00001").data) (some 2) (some 0) = none ∧
    (∃ s st', registerSale stC2 (("C00001").data) (some 2) (some 0) monthC2
        nowC2 = (.ok s, st') ∧
      ∃ sh row, sheetLookup st'.sales (monthSheetName monthC2) = some sh ∧
        sh.rows = (_getSalesSheetForMonth stC2 monthC2).1.rows ++ [row] ∧
        ((0 : Rat) = 0 → s.amount_paid = 0 ∧ row[5]? = some (Cell.str [])) ∧
        (s.pending_balance = 0 → row[6]? = some (Cell.str [])) ∧
        (∀ (stc : Store) (f l ph : Option Str) (now2 : Str) (c : Customer),
          (registerCustomer stc f l ph none now2).1 = .ok c → c.email = [])) :=
  ⟨hvC10, C10_falsy_serialization stC2 (("C00001").data) 2 0 monthC2 nowC2
    (("S00002").data) st2C2 hvC10 hallocC2 rfl⟩

-- ======================= C6 =======================

/-- The status `updateSalesSummary` computes for one matching segment
(`none` = skipped for lack of a `pending_balance` column). -/
def segStatus (sh : Sheet) : Option Str :=
  if sh.rows.isEmpty then some (("settled").data)
  else
    match sh.header.findIdx? (fun h => decide (h = ("pending_balance").data)) with
    | none => none
    | some idx =>
      some (if sh.rows.any (fun row =>
          match cellNumber row[idx]? with
          | some n => decide (0 < n)
          | none => false) then ("pending").data else ("settled").data)

theorem summaryStep_eq (m : List (Str × Str)) (p : Str × Sheet) :
    summaryStep m p =
      if salesNameMatches p.1 then
        match segStatus p.2 with
        | none => m
        | some v => mapUpsert m p.1 v
      else m := by
  unfold summaryStep segStatus
  by_cases h1 : salesNameMatches p.1 = true
  · rw [if_pos h1, if_pos h1]
    by_cases h2 : p.2.rows.isEmpty = true
    · rw [if_pos h2, if_pos h2]
    · rw [if_neg h2, if_neg h2]
      cases hf : p.2.header.findIdx? (fun h => decide (h = ("pending_balance").data)) with
      | none => rfl
      | some idx => rfl
  · rw [if_neg h1, if_neg h1]

theorem mapUpsert_mem_self (m : List (Str × Str)) (k v : Str) :
    (k, v) ∈ mapUpsert m k v := by
  unfold mapUpsert
  by_cases h : m.any (fun p => decide (p.1 = k)) = true
  · rw [if_pos h]
    rw [List.any_eq_true] at h
    obtain ⟨p, hp, hpk⟩ := h
    refine List.mem_map.mpr ⟨p, hp, ?_⟩
    rw [if_pos (by simpa using hpk)]
  · rw [if_neg h]
    exact List.mem_append_right _ (by simp)

theorem mapUpsert_mem_preserve {m : List (Str × Str)} {k v : Str}
    (hmem : (k, v) ∈ m) (k' v' : Str) (hne : k' ≠ k) :
    (k, v) ∈ mapUpsert m k' v' := by
  unfold mapUpsert
  by_cases h : m.any (fun p => decide (p.1 = k')) = true
  · rw [if_pos h]
    refine List.mem_map.mpr ⟨(k, v), hmem, ?_⟩
    rw [if_neg (by simpa using fun hx => hne hx.symm)]
  · rw [if_neg h]
    exact List.mem_append_left _ hmem

theorem summaryStep_mem_preserve {m : List (Str × Str)} {k v : Str}
    (hmem : (k, v) ∈ m) (p : Str × Sheet) (hne : p.1 ≠ k) :
    (k, v) ∈ summaryStep m p := by
  rw [summaryStep_eq]
  by_cases h1 : salesNameMatches p.1 = true
  · rw [if_pos h1]
    cases hs : segStatus p.2 with
    | none => exact hmem
    | some v' => exact mapUpsert_mem_preserve hmem p.1 v' hne
  · rw [if_neg h1]
    exact hmem

theorem foldl_summaryStep_mem_preserve {k v : Str} :
    ∀ (l : List (Str × Sheet)) (m : List (Str × Str)), (k, v) ∈ m →
      (∀ p ∈ l, p.1 ≠ k) → (k, v) ∈ l.foldl summaryStep m := by
  intro l
  induction l with
  | nil => intro m hm _; exact hm
  | cons p rest ih =>
    intro m hm hl
    show (k, v) ∈ rest.foldl summaryStep (summaryStep m p)
    exact ih _ (summaryStep_mem_preserve hm p (hl p (by simp)))
      (fun q hq => hl q (by simp [hq]))

/-- With unique sheet names, every matching segment's computed status
ends up in the fold result. -/
theorem foldl_summaryStep_mem {l : List (Str × Sheet)} {name v : Str} {sh : Sheet}
    (hnodup : (l.map Prod.fst).Nodup) (hmem : (name, sh) ∈ l)
    (hmatch : salesNameMatches name = true) (hstat : segStatus sh = some v)
    (m : List (Str × Str)) :
    (name, v) ∈ l.foldl summaryStep m := by
  obtain ⟨l1, l2, rfl⟩ := List.append_of_mem hmem
  rw [List.foldl_append]
  show (name, v) ∈ l2.foldl summaryStep (summaryStep (l1.foldl summaryStep m) (name, sh))
  have hstep : (name, v) ∈ summaryStep (l1.foldl summaryStep m) (name, sh) := by
    rw [summaryStep_eq]
    show (name, v) ∈ (if salesNameMatches name = true then
      match segStatus sh with
      | none => l1.foldl summaryStep m
      | some v' => mapUpsert (l1.foldl summaryStep m) name v' else _)
    rw [if_pos hmatch, hstat]
    exact mapUpsert_mem_self _ name v
  refine foldl_summaryStep_mem_preserve l2 _ hstep ?_
  intro p hp
  rw [List.map_append, List.map_cons] at hnodup
  have h2 := (List.nodup_append.mp hnodup).2.1
  rw [List.nodup_cons] at h2
  intro hx
  have hmm : p.1 ∈ l2.map Prod.fst := List.mem_map_of_mem Prod.fst hp
  rw [hx] at hmm
  exact h2.1 hmm

theorem anyPending_iff (rows : List (List Cell)) (idx : Nat) :
    rows.any (fun row => match cellNumber row[idx]? with
      | some n => decide (0 < n) | none => false) = true ↔
    ∃ row ∈ rows, ∃ n, cellNumber row[idx]? = some n ∧ 0 < n := by
  rw [List.any_eq_true]
  constructor
  · rintro ⟨row, hr, hx⟩
    cases hc : cellNumber row[idx]? with
    | none =>
      rw [hc] at hx
      exact absurd hx (by simp)
    | some n =>
      rw [hc] at hx
      have hd : decide (0 < n) = true := hx
      exact ⟨row, hr, n, hc, by simpa using hd⟩
  · rintro ⟨row, hr, n, hc, hn⟩
    refine ⟨row, hr, ?_⟩
    rw [hc]
    show decide (0 < n) = true
    simpa using hn

/-- C6: `updateSalesSummary` rebuilds the summary as header plus one
row per mapped month — settled for an empty segment, pending exactly
when some row's `pending_balance` converts to a number above zero — by
clear-then-rewrite: the new contents are generated solely from the
segments, so every previously stored summary row is discarded. -/
theorem C6_summary_rebuild (st : Store) (nowFmt : Str) (old : List (List Cell))
    (hsum : st.summary = some old)
    (hnodup : (st.sales.map Prod.fst).Nodup) :
    (updateSalesSummary st nowFmt).summary =
      some (summaryHeaderRow :: (st.sales.foldl summaryStep []).map
        (fun p => [Cell.str p.1, Cell.str p.2, Cell.str nowFmt])) ∧
    (∀ name sh, (name, sh) ∈ st.sales → salesNameMatches name = true →
      (sh.rows.isEmpty = true →
        [Cell.str name, Cell.str (("settled").data), Cell.str nowFmt] ∈
          (updateSalesSummary st nowFmt).summary.getD []) ∧
      (∀ idx, sh.rows.isEmpty = false →
        sh.header.findIdx? (fun h => decide (h = ("pending_balance").data)) =
          some idx →
        ((∃ row ∈ sh.rows, ∃ n, cellNumber row[idx]? = some n ∧ 0 < n) →
          [Cell.str name, Cell.str (("pending").data), Cell.str nowFmt] ∈
            (updateSalesSummary st nowFmt).summary.getD []) ∧
        ((¬ ∃ row ∈ sh.rows, ∃ n, cellNumber row[idx]? = some n ∧ 0 < n) →
          [Cell.str name, Cell.str (("settled").data), Cell.str nowFmt] ∈
            (updateSalesSummary st nowFmt).summary.getD []))) := by
  have hmain : (updateSalesSummary st nowFmt).summary =
      some (summaryHeaderRow :: (st.sales.foldl summaryStep []).map
        (fun p => [Cell.str p.1, Cell.str p.2, Cell.str nowFmt])) := by
    unfold updateSalesSummary
    rw [hsum]
  refine ⟨hmain, ?_⟩
  intro name sh hmem hmatch
  have hrow : ∀ v, (name, v) ∈ st.sales.foldl summaryStep [] →
      [Cell.str name, Cell.str v, Cell.str nowFmt] ∈
        (updateSalesSummary st nowFmt).summary.getD [] := by
    intro v hv
    rw [hmain]
    show _ ∈ summaryHeaderRow :: _
    refine List.mem_cons_of_mem _ ?_
    exact List.mem_map.mpr ⟨(name, v), hv, rfl⟩
  constructor
  · intro hempty
    refine hrow _ (foldl_summaryStep_mem hnodup hmem hmatch ?_ [])
    unfold segStatus
    rw [if_pos hempty]
  · intro idx hnonempty hidx
    constructor
    · intro hex
      have hstat : segStatus sh = some (("pending").data) := by
        unfold segStatus
        rw [if_neg (by simp [hnonempty]), hidx]
        show some (if (sh.rows.any fun row => match cellNumber row[idx]? with
          | some n => decide (0 < n) | none => false) = true then ("pending").data
          else ("settled").data) = _
        rw [if_pos ((anyPending_iff sh.rows idx).mpr hex)]
      exact hrow _ (foldl_summaryStep_mem hnodup hmem hmatch hstat [])
    · intro hnex
      have hstat : segStatus sh = some (("settled").data) := by
        unfold segStatus
        rw [if_neg (by simp [hnonempty]), hidx]
        show some (if (sh.rows.any fun row => match cellNumber row[idx]? with
          | some n => decide (0 < n) | none => false) = true then ("pending").data
          else ("settled").data) = _
        rw [if_neg (by
          intro hx
          exact hnex ((anyPending_iff sh.rows idx).mp hx))]
      exact hrow _ (foldl_summaryStep_mem hnodup hmem hmatch hstat [])

def shPend : Sheet :=
  { header := salesHeader,
    rows := [[Cell.str (("S00001").data), Cell.str (("C00001").data),
      Cell.num 2, Cell.num 15000, Cell.num 30000, Cell.num 10000,
      Cell.num 20000, Cell.str (("Partial").data), Cell.str [], Cell.str []]] }

def shEmpty : Sheet := { header := salesHeader, rows := [] }

def stC6 : Store :=
  { customers := [], settings := none,
    sales := [((("sales_2024_01").data), shPend),
              ((("sales_2024_02").data), shEmpty)],
    summary := some [[Cell.str (("manual").data)]] }

def nowC6 : Str := ("2024-03-01 12:00").data

theorem C6_summary_rebuild_witness :
    stC6.summary = some [[Cell.str (("manual").data)]] ∧
    (stC6.sales.map Prod.fst).Nodup ∧
    ((updateSalesSummary stC6 nowC6).summary =
      some (summaryHeaderRow :: (stC6.sales.foldl summaryStep []).map
        (fun p => [Cell.str p.1, Cell.str p.2, Cell.str nowC6])) ∧
    (∀ name sh, (name, sh) ∈ stC6.sales → salesNameMatches name = true →
      (sh.rows.isEmpty = true →
        [Cell.str name, Cell.str (("settled").data), Cell.str nowC6] ∈
          (updateSalesSummary stC6 nowC6).summary.getD []) ∧
      (∀ idx, sh.rows.isEmpty = false →
        sh.header.findIdx? (fun h => decide (h = ("pending_balance").data)) =
          some idx →
        ((∃ row ∈ sh.rows, ∃ n, cellNumber row[idx]? = some n ∧ 0 < n) →
          [Cell.str name, Cell.str (("pending").data), Cell.str nowC6] ∈
            (updateSalesSummary stC6 nowC6).summary.getD []) ∧
        ((¬ ∃ row ∈ sh.rows, ∃ n, cellNumber row[idx]? = some n ∧ 0 < n) →
          [Cell.str name, Cell.str (("settled").data), Cell.str nowC6] ∈
            (updateSalesSummary stC6 nowC6).summary.getD [])))) :=
  ⟨rfl, by decide,
    C6_summary_rebuild stC6 nowC6 [[Cell.str (("manual").data)]] rfl (by decide)⟩

-- ======================= C8 =======================

/-- The empty store with the customer-id counter at `k`. -/
def custCounterStore (k : Nat) : Store :=
  { customers := [],
    settings := some [(("last_customer_id_number").data, Cell.num (k : Int))],
    sales := [], summary := none }

/-- `N` sequential calls of the customer-id allocator, each threading
the store the previous call returned. -/
def allocSeq : Nat → Store → List (Except Str Str)
  | 0, _ => []
  | n + 1, st =>
    match _generateNextCustomerId st with
    | .error m => .error m :: allocSeq n st
    | .ok (cid, st2) => .ok cid :: allocSeq n st2

theorem allocSeq_spec :
    ∀ (N : Nat) (st : Store) (k : Nat), counterOf st = some k →
      allocSeq N st = (List.range N).map
        (fun i => (.ok (fmtCid (k + i + 1)) : Except Str Str)) := by
  intro N
  induction N with
  | zero => intro st k _; rfl
  | succ n ih =>
    intro st k h
    obtain ⟨st2, hgen, hcnt2, _, _, _⟩ := counterOf_generate h
    show (match _generateNextCustomerId st with
      | .error m => (.error m : Except Str Str) :: allocSeq n st
      | .ok (cid, st2) => .ok cid :: allocSeq n st2) = _
    rw [hgen]
    show (Except.ok (fmtCid (k + 1)) : Except Str Str) :: allocSeq n st2 = _
    rw [List.range_succ_eq_map, List.map_cons, List.map_map]
    have hfun : ((fun i => (Except.ok (fmtCid (k + i + 1)) : Except Str Str)) ∘
        Nat.succ) = (fun i => (.ok (fmtCid (k + 1 + i + 1)) : Except Str Str)) := by
      funext i
      show Except.ok (fmtCid (k + (i + 1) + 1)) = .ok (fmtCid (k + 1 + i + 1))
      have : k + (i + 1) + 1 = k + 1 + i + 1 := by omega
      rw [this]
    rw [hfun]
    rw [ih st2 (k + 1) hcnt2]

/-- C8: from the empty store with the counter at 0, `N` sequential
allocator calls all succeed and return exactly the canonical ids
`C00001 … C0000N` in order — no gaps (the i-th call yields the id with
numeric suffix i+1) and no repeats (the returned ids are pairwise
distinct). -/
theorem C8_alloc_sequence (N : Nat) :
    allocSeq N (custCounterStore 0) =
      (List.range N).map (fun i => (.ok (fmtCid (i + 1)) : Except Str Str)) ∧
    ((List.range N).map (fun i => fmtCid (i + 1))).Nodup := by
  constructor
  · have h := allocSeq_spec N (custCounterStore 0) 0 (by decide)
    rw [h]
    apply List.map_congr_left
    intro i _
    rw [Nat.zero_add]
  · refine List.Nodup.map ?_ (List.nodup_range N)
    intro i j hij
    have := fmtCid_inj hij
    omega

-- ======================= C9 =======================

def stC9 : Store :=
  { customers := [],
    settings := some [(("last_customer_id_number").data,
      Cell.str (("abc").data))],
    sales := [], summary := none }

/-- C9 counterexample: with the counter cell corrupt (a non-numeric
string), the allocator does NOT fail — `parseInt` yields `NaN` and the
call silently succeeds with the malformed id `"C00NaN"`, which fails
the system's own id format check. -/
theorem C9_counterexample :
    (∃ st2, _generateNextCustomerId stC9 = .ok ((("C00NaN").data), st2)) ∧
    _customerIdIsValid (("C00NaN").data) = false :=
  ⟨⟨_, rfl⟩, by decide⟩

/-- C9 (amended): a missing settings sheet or a missing counter key
does fail with the generic allocation error, for both allocators;
but a present-yet-corrupt counter value (one `parseInt` cannot read)
silently yields the malformed id `"C00NaN"` / `"S00NaN"` instead of an
error. -/
theorem C9_amended (st : Store) :
    (st.settings = none →
      (∃ m, _generateNextCustomerId st = .error m) ∧
      (∃ m, _generateNextSaleId st = .error m)) ∧
    (∀ rows, st.settings = some rows →
      (allocFromSettings (("last_customer_id_number").data) rows = none →
        ∃ m, _generateNextCustomerId st = .error m) ∧
      (allocFromSettings (("last_sale_id_number").data) rows = none →
        ∃ m, _generateNextSaleId st = .error m) ∧
      (∀ rows2, allocFromSettings (("last_customer_id_number").data) rows =
          some (none, rows2) →
        ∃ st2, _generateNextCustomerId st = .ok ((("C00NaN").data), st2)) ∧
      (∀ rows2, allocFromSettings (("last_sale_id_number").data) rows =
          some (none, rows2) →
        ∃ st2, _generateNextSaleId st = .ok ((("S00NaN").data), st2))) := by
  constructor
  · intro hnone
    constructor
    · refine ⟨("Failed to generate a new customer ID.").data, ?_⟩
      unfold _generateNextCustomerId
      rw [hnone]
    · refine ⟨("Failed to generate a new sale ID.").data, ?_⟩
      unfold _generateNextSaleId
      rw [hnone]
  · intro rows hsome
    refine ⟨?_, ?_, ?_, ?_⟩
    · intro halloc
      refine ⟨("Failed to generate a new customer ID.").data, ?_⟩
      unfold _generateNextCustomerId
      rw [hsome]
      show (match allocFromSettings (("last_customer_id_number").data) rows with
        | none => (Except.error (("Failed to generate a new customer ID.").data) :
            Except Str (Str × Store))
        | some (nextIdNum, rows2) =>
          .ok ('C' :: padStart5 (jsNumToString nextIdNum),
            { st with settings := some rows2 })) = _
      rw [halloc]
    · intro halloc
      refine ⟨("Failed to generate a new sale ID.").data, ?_⟩
      unfold _generateNextSaleId
      rw [hsome]
      show (match allocFromSettings (("last_sale_id_number").data) rows with
        | none => (Except.error (("Failed to generate a new sale ID.").data) :
            Except Str (Str × Store))
        | some (nextIdNum, rows2) =>
          .ok ('S' :: padStart5 (jsNumToString nextIdNum),
            { st with settings := some rows2 })) = _
      rw [halloc]
    · intro rows2 halloc
      refine ⟨{ st with settings := some rows2 }, ?_⟩
      unfold _generateNextCustomerId
      rw [hsome]
      show (match allocFromSettings (("last_customer_id_number").data) rows with
        | none => (Except.error (("Failed to generate a new customer ID.").data) :
            Except Str (Str × Store))
        | some (nextIdNum, rows2) =>
          .ok ('C' :: padStart5 (jsNumToString nextIdNum),
            { st with settings := some rows2 })) = _
      rw [halloc]
      rfl
    · intro rows2 halloc
      refine ⟨{ st with settings := some rows2 }, ?_⟩
      unfold _generateNextSaleId
      rw [hsome]
      show (match allocFromSettings (("last_sale_id_number").data) rows with
        | none => (Except.error (("Failed to generate a new sale ID.").data) :
            Except Str (Str × Store))
        | some (nextIdNum, rows2) =>
          .ok ('S' :: padStart5 (jsNumToString nextIdNum),
            { st with settings := some rows2 })) = _
      rw [halloc]
      rfl

theorem C9_amended_witness :
    stC9.settings = some [(("last_customer_id_number").data,
      Cell.str (("abc").data))] ∧
    allocFromSettings (("last_customer_id_number").data)
      [(("last_customer_id_number").data, Cell.str (("abc").data))] =
      some (none, [(("last_customer_id_number").data, Cell.nan)]) ∧
    ∃ st2, _generateNextCustomerId stC9 = .ok ((("C00NaN").data), st2) :=
  ⟨rfl, rfl,
    ((C9_amended stC9).2 [(("last_customer_id_number").data,
        Cell.str (("abc").data))] rfl).2.2.1
      [(("last_customer_id_number").data, Cell.nan)] rfl⟩
